import Mathlib

/-!
Verification development for the rcsb/py-rcsb_ccmodels chemical-component-model
pipeline.  The definitions below are a shallow embedding of the match-acceptance,
model-writing and assembly logic of `rcsb/ccmodels/search/CODModelBuild.py` and
`rcsb/ccmodels/search/ChemCompModelAssemble.py`.

Modelling conventions:
* Python dicts are modelled either as association lists with last-write-wins
  lookup (`dictFind`) or, for the mutable per-parent counters of the assembly
  relabelling loop, as total functions `String → _` updated pointwise.
* Python strings are compared and split at the character level
  (`strLt`, `charsSplitOn`, ...), matching CPython's code-point semantics for
  the ASCII data handled by the pipeline.
* Floating-point values that are only ordered, never computed with
  (R-factors), are carried as `Int`; coordinates are carried as `Int` and the
  `"%.4f"` / `"%.3f"` reformatting of the source is not modelled (no claim
  depends on the formatted text).  The temperature normalisation feature
  (`experiment_temperature`), which performs floating-point parsing and
  arithmetic, is omitted from the feature table; in the source its failure is
  caught locally and only drops that single advisory row.
* File-system and mmCIF-marshalling side effects are out of scope: a model
  "write" is represented by the structured record it would marshal, and a
  marshalling failure (source: `doExport` returning False) is not modelled.
-/

namespace CCModels

/-! ### Character-level string helpers

Python's `str.startswith`, `in` (substring), `str.split` and `int()` are
re-implemented on `List Char` so that all definitions evaluate inside the
kernel. -/

/-- Character-list prefix test: `charsStartWith s pre` is true iff `pre` is a
prefix of `s` (Python `s.startswith(pre)`). -/
def charsStartWith : List Char → List Char → Bool
  | _, [] => true
  | [], _ :: _ => false
  | a :: as, b :: bs => a == b && charsStartWith as bs

/-- Python `s.startswith(pre)`. -/
def strStartsWith (s pre : String) : Bool := charsStartWith s.data pre.data

/-- Character-list substring test, used for Python's `pat in s`. -/
def charsContainsSub : List Char → List Char → Bool
  | [], pat => pat.isEmpty
  | a :: rest, pat => charsStartWith (a :: rest) pat || charsContainsSub rest pat

/-- Python `pat in s` (substring containment). -/
def strContainsSub (s pat : String) : Bool := charsContainsSub s.data pat.data

/-- Character-list lexicographic strict order by code point; this is CPython's
`<` on strings. -/
def charListLt : List Char → List Char → Bool
  | [], [] => false
  | [], _ :: _ => true
  | _ :: _, [] => false
  | a :: as, b :: bs => if a < b then true else if b < a then false else charListLt as bs

/-- Python `a < b` on strings (code-point lexicographic). -/
def strLt (a b : String) : Bool := charListLt a.data b.data

/-- Split a character list on a single separator character, Python
`s.split(sep)` semantics: `"A__B"` splits into `["A", "", "B"]` and the empty
string splits into `[""]`. -/
def charsSplitOn (sep : Char) : List Char → List (List Char)
  | [] => [[]]
  | c :: rest =>
      let r := charsSplitOn sep rest
      if c == sep then [] :: r
      else
        match r with
        | [] => [[c]]
        | h :: t => (c :: h) :: t

/-- Parse a non-empty all-digit character list into a number (accumulator
form).  Any non-digit character makes the parse fail. -/
def charsToNatAux : Nat → List Char → Option Nat
  | acc, [] => some acc
  | acc, c :: rest => if c.isDigit then charsToNatAux (acc * 10 + (c.toNat - 48)) rest else none

/-- Python `int(s)` for the decimal identifiers handled by the pipeline.
In the source a malformed string raises `ValueError`; theorems below only ever
apply this to well-formed `"NNNNN"` suffixes. -/
def charsToNat : List Char → Option Nat
  | [] => none
  | c :: rest => charsToNatAux 0 (c :: rest)

/-- Association-list lookup with Python-dict semantics: a later binding of the
same key shadows an earlier one (last write wins). -/
def dictFind {β : Type} : List (String × β) → String → Option β
  | [], _ => none
  | p :: rest, k =>
      match dictFind rest k with
      | some v => some v
      | none => if p.1 == k then some p.2 else none

/-- Python `k in d` for association-list dictionaries. -/
def dictContains {β : Type} (d : List (String × β)) (k : String) : Bool :=
  (dictFind d k).isSome

/-! ### Build-stage data model (CODModelBuild.py)

`ComponentAtomDetails` and `AlignAtomUnMapped` are the namedtuples produced by
the alignment oracle (`OeAlignUtils`, out of scope); only the fields the build
worker reads are carried. -/

/-- One fit-molecule atom record (source namedtuple `ComponentAtomDetails`);
`atIdx` is dropped because the worker only reads name, type, charge and
coordinates after the index join in `__alignModelSubStruct`. -/
structure FitAtom where
  atName : String
  atType : String
  atFormalCharge : Int
  x : Int
  y : Int
  z : Int
  deriving Repr, DecidableEq

/-- One unmapped fit atom (source namedtuple `AlignAtomUnMapped`).
`fitNeighbors` is the list of fit-atom names of its bonded neighbours. -/
structure UnmappedAtom where
  fitAtNo : Nat
  fitAtType : String
  fitAtName : String
  fitAtFormalCharge : Int
  x : Int
  y : Int
  z : Int
  fitNeighbors : List String
  deriving Repr, DecidableEq

/-- One row of the reference definition's `chem_comp_atom` category. -/
structure RefAtom where
  atName : String
  atType : String
  deriving Repr, DecidableEq

/-- One row of the reference definition's `chem_comp_bond` category. -/
structure RefBond where
  at1 : String
  at2 : String
  bType : String
  deriving Repr, DecidableEq

/-- The reference chemical-component definition (source: the target mmCIF
data container read in `__writeModel`). -/
structure TargetObj where
  name : String
  atoms : List RefAtom
  bonds : List RefBond
  deriving Repr, DecidableEq

/-- The fit-molecule feature dictionary `fitFD` produced by the aligner.
`keys` models the dictionary's key set, which `__writeModel` checks for
`"xyz"`, `"SMILES"`, `"SMILES_STEREO"`, `"InChI"`, `"InChIKey"`; the value
fields are carried separately.  (In the source a missing `"SMILES_STEREO"`
key would abort the whole worker batch with an exception before any
per-candidate decision; that exception path is not modelled.) -/
structure FitFD where
  keys : List String
  smiles : String
  smilesStereo : String
  inchi : String
  inchiKey : String
  xyz : List FitAtom
  deriving Repr, DecidableEq

/-- Per-candidate metadata from the COD search index (source dict `matchD`).
Optional values model Python `None`. -/
structure MatchD where
  queryId : Option String
  parentId : String
  rValue : Option String
  hasDisorder : Option String
  publicationDOI : Option String
  version : Option String
  radiationSource : Option String
  deriving Repr, DecidableEq

/-- One alignment result as consumed by the acceptance tests of
`CODModelBuildWorker.build` (lines 116-159): reference/fit atom counts, the
two `SMILES_STEREO` descriptors, the reference-name-keyed coordinate map
`fitXyzMapD`, the unmapped fit atoms and the aligner's skip flag. -/
structure AlignResult where
  nAtomsRef : Nat
  nAtomsFit : Nat
  refSmilesStereo : String
  fitFD : FitFD
  fitXyzMapD : List (String × FitAtom)
  fitAtomUnMappedL : List UnmappedAtom
  isSkipped : Bool
  deriving Repr, DecidableEq

/-- Source `__testUnMappedProtonation`: true iff every unmapped fit atom has
atomic number 1 (the loop sets `fitOk = False` on the first other atom). -/
def testUnMappedProtonation (l : List UnmappedAtom) : Bool :=
  l.all (fun atU => atU.fitAtNo == 1)

/-- The acceptance tests of `CODModelBuildWorker.build` (lines 140-159): the
three accept branches, then the unconditional sparse-map override
`if len(fitXyzMapD) < 2: acceptOk = False`. -/
def codAcceptOk (r : AlignResult) : Bool :=
  let smilesMatch := r.refSmilesStereo == r.fitFD.smilesStereo
  let hasUnMapped := decide (0 < r.fitAtomUnMappedL.length)
  let unMappedOk := testUnMappedProtonation r.fitAtomUnMappedL
  let acceptOk :=
    if r.nAtomsRef == r.fitXyzMapD.length && smilesMatch then true
    else if decide (r.fitXyzMapD.length < r.nAtomsRef) && smilesMatch then true
    else if r.nAtomsRef == r.fitXyzMapD.length && hasUnMapped && unMappedOk then true
    else false
  if r.fitXyzMapD.length < 2 then false else acceptOk

/-- Source `__getBuildVariant`: classify the reference's build type from the
search-index entry's `build-type` value (the provider lookup itself is out of
scope; the entry's string is passed in). -/
def getBuildVariant (buildType : String) : String :=
  if strContainsSub buildType "protomer" then "tautomer_protomer"
  else if strContainsSub buildType "tautomer" then "tautomer_protomer"
  else ""

/-- The fit-name → reference-name map built at the top of `__writeModel`
(`fitAtMapD[fAtTup.atName] = refAtName` over `fitXyzMapD.items()`). -/
def fitAtMapOf (fitXyzMapD : List (String × FitAtom)) : List (String × String) :=
  fitXyzMapD.map (fun p => (p.2.atName, p.1))

/-- The neighbour guard of `__writeModel`: every unmapped atom's recorded
neighbour names must be names of mapped fit atoms. -/
def unmappedNeighborsMapped (fitAtMapD : List (String × String))
    (l : List UnmappedAtom) : Bool :=
  l.all (fun u => u.fitNeighbors.all (fun nm => dictContains fitAtMapD nm))

/-- The required-descriptor check of `__writeModel` (`kList` loop). -/
def requiredKeysPresent (fd : FitFD) : Bool :=
  ["xyz", "SMILES", "SMILES_STEREO", "InChI", "InChIKey"].all (fun k => fd.keys.contains k)

/-- Python `targetId.split("|")[0]`, the parent component of a (possibly
variant-suffixed) target identifier. -/
def parentIdOfTarget (targetId : String) : String :=
  String.mk ((charsSplitOn '|' targetId.data).getD 0 [])

/-- One row of `pdbx_chem_comp_model_atom`. -/
structure AtomRow where
  modelId : String
  atomId : String
  typeSymbol : String
  charge : Int
  x : Int
  y : Int
  z : Int
  ordinal : Nat
  deriving Repr, DecidableEq

/-- One row of `pdbx_chem_comp_model_bond`. -/
structure BondRow where
  modelId : String
  atomId1 : String
  atomId2 : String
  valueOrder : String
  ordinal : Nat
  deriving Repr, DecidableEq

/-- The structured model record marshalled by `__writeModel` (one mmCIF data
container): atom, bond, descriptor, reference, feature and audit categories,
plus the variant classification the worker returns alongside it. -/
structure ModelRecord where
  modelId : String
  compId : String
  atomRows : List AtomRow
  bondRows : List BondRow
  descriptorRows : List (String × String)
  referenceRows : List (String × String)
  featureRows : List (String × String)
  auditRows : List (String × String)
  variantType : String
  deriving Repr, DecidableEq

/-- The mapped-atom loop of `__writeModel` (COD variant, lines 539-559): one
row per reference `chem_comp_atom` row whose name is in `fitXyzMapD`, in
declaration order, with the running row counter `jj`; reference atoms absent
from the map are skipped. -/
def mappedAtomRowsFrom (modelId : String) (m : List (String × FitAtom)) :
    Nat → List RefAtom → List AtomRow
  | _, [] => []
  | jj, a :: rest =>
      match dictFind m a.atName with
      | none => mappedAtomRowsFrom modelId m jj rest
      | some fitXyz =>
          { modelId := modelId, atomId := a.atName, typeSymbol := a.atType,
            charge := fitXyz.atFormalCharge, x := fitXyz.x, y := fitXyz.y, z := fitXyz.z,
            ordinal := jj + 1 } :: mappedAtomRowsFrom modelId m (jj + 1) rest

/-- The atom types of the reference atoms skipped by the mapped-atom loop
(source `unMappedTypeD`, a count dictionary of which only the key set is ever
read: `len(unMappedTypeD) == 1 and "H" in unMappedTypeD`).  `List.dedup`
returns the same key set; its internal order is never observed. -/
def skippedRefTypes (atoms : List RefAtom) (m : List (String × FitAtom)) : List String :=
  ((atoms.filter (fun a => !(dictContains m a.atName))).map (fun a => a.atType)).dedup

/-- Placeholder name for the `jj`-th synthetic (unmapped-proton) atom row:
prefix `"HEX"` plus the zero-based ordinal. -/
def synthAtomName (jj : Nat) : String := "HEX" ++ toString jj

/-- The unmapped-atom rows of `__writeModel` (lines 563-573).  The source sets
`ii = wObj.getRowCount()` once and never increments it inside the loop, so
every iteration writes the same row index: with several unmapped atoms each
write overwrites the previous one and only the final atom's row survives
(`DataCategory.setValue` pads to the row index and then assigns in place).
The fold reproduces exactly that single-slot overwrite. -/
def synthAtomRows (modelId : String) (ii : Nat) (l : List UnmappedAtom) : List AtomRow :=
  l.enum.foldl
    (fun _ ju =>
      [{ modelId := modelId, atomId := synthAtomName ju.1, typeSymbol := ju.2.fitAtType,
         charge := ju.2.fitAtFormalCharge, x := ju.2.x, y := ju.2.y, z := ju.2.z,
         ordinal := ii + 1 }])
    []

/-- The reference-bond loop of `__writeModel` (lines 583-598): a bond row is
emitted only when both endpoint names are in `fitXyzMapD`. -/
def mappedBondRowsFrom (modelId : String) (m : List (String × FitAtom)) :
    Nat → List RefBond → List BondRow
  | _, [] => []
  | jj, b :: rest =>
      if !(dictContains m b.at1) then mappedBondRowsFrom modelId m jj rest
      else if !(dictContains m b.at2) then mappedBondRowsFrom modelId m jj rest
      else
        { modelId := modelId, atomId1 := b.at1, atomId2 := b.at2, valueOrder := b.bType,
          ordinal := jj + 1 } :: mappedBondRowsFrom modelId m (jj + 1) rest

/-- The synthetic single bonds from each unmapped atom to its mapped
neighbours (lines 600-609).  As with `synthAtomRows`, the row index `ii` is
fixed before the nested loops, so each neighbour bond overwrites the previous
one and only the last written bond row survives. -/
def synthBondRows (modelId : String) (ii : Nat) (fitAtMapD : List (String × String))
    (l : List UnmappedAtom) : List BondRow :=
  l.enum.foldl
    (fun acc ju =>
      ju.2.fitNeighbors.foldl
        (fun _ nm =>
          [{ modelId := modelId, atomId1 := synthAtomName ju.1,
             atomId2 := (dictFind fitAtMapD nm).getD "", valueOrder := "SING",
             ordinal := ii + 1 }])
        acc)
    []

/-- The feature rows of `__writeModel` (lines 645-720), in emission order:
the string features found by the `fKeyList` scan, then the boolean features of
`boolKeyList`, then the variant-match feature.  Notes kept from the source:
`experiment_temperature` (floating-point normalisation) is omitted here; the
`r_factor` value is carried unformatted (source applies `"%.3f" % float(v)`);
the dictionary stores the version under `"cod_version"` while `fKeyList`
looks up `"csd_version"`, so that feature is never emitted. -/
def featureRowsOf (matchD : MatchD) (skippedTypes : List String)
    (variantType : String) : List (String × String) :=
  (match matchD.publicationDOI with
   | some v => if 0 < v.length then [("publication_doi", v)] else []
   | none => []) ++
  (match matchD.rValue with
   | some v => if 0 < v.length then [("r_factor", v)] else []
   | none => []) ++
  (if (match matchD.hasDisorder with
       | some s => s == "Y"
       | none => false) then [("has_disorder", "Y")] else []) ++
  (if (match matchD.radiationSource with
       | some s => strContainsSub s "neutron"
       | none => false) then [("neutron_radiation_experiment", "Y")] else []) ++
  (if skippedTypes.length == 1 && skippedTypes.contains "H"
   then [("heavy_atoms_only", "Y")]
   else [("all_atoms_have_sites", "Y")]) ++
  (if 0 < variantType.length then [(variantType ++ "_match", "Y")] else [])

/-- Source `CODModelBuildWorker.__writeModel` (lines 472-741): the guard
cascade (unmapped non-hydrogens, unmapped neighbours, required descriptor
keys) followed by construction of the model record.  `none` models the
`return False, variantType` failure paths; `today` is the audit date string
produced by `__getToday()`. -/
def writeModel (targetId buildType : String) (targetObj : TargetObj) (fitFD : FitFD)
    (fitXyzMapD : List (String × FitAtom)) (fitAtomUnMappedL : List UnmappedAtom)
    (matchD : MatchD) (modelId : String) (today : String) : Option ModelRecord :=
  let variantType0 := getBuildVariant buildType
  if !(testUnMappedProtonation fitAtomUnMappedL) then none
  else
    let fitAtMapD := fitAtMapOf fitXyzMapD
    if !fitAtomUnMappedL.isEmpty && !(unmappedNeighborsMapped fitAtMapD fitAtomUnMappedL)
    then none
    else
      let variantType := if !fitAtomUnMappedL.isEmpty then "tautomer_protomer" else variantType0
      if !(requiredKeysPresent fitFD) then none
      else
        let mappedRows := mappedAtomRowsFrom modelId fitXyzMapD 0 targetObj.atoms
        let mappedBonds := mappedBondRowsFrom modelId fitXyzMapD 0 targetObj.bonds
        some
          { modelId := modelId
            compId := parentIdOfTarget targetId
            atomRows := mappedRows ++ synthAtomRows modelId mappedRows.length fitAtomUnMappedL
            bondRows := mappedBonds ++ synthBondRows modelId mappedBonds.length fitAtMapD fitAtomUnMappedL
            descriptorRows :=
              [("SMILES", fitFD.smiles), ("SMILES_CANONICAL", fitFD.smilesStereo),
               ("InChI", fitFD.inchi), ("InChIKey", fitFD.inchiKey)]
            referenceRows :=
              match matchD.queryId with
              | some q => [("COD", q)]
              | none => []
            featureRows := featureRowsOf matchD (skippedRefTypes targetObj.atoms fitXyzMapD) variantType
            auditRows := [("Initial release", today)]
            variantType := variantType }

/-- One entry of the worker's `resultList` (source lines 216-228). -/
structure ResultEntry where
  modelId : String
  searchId : String
  parentId : String
  matchId : Option String
  matchDB : String
  modelPath : String
  rFactor : Option String
  hasDisorder : String
  variantType : String
  deriving Repr, DecidableEq

/-- The per-candidate body of `CODModelBuildWorker.build` (lines 132-228):
the alignment-failure and skip guards, the acceptance tests, the model write,
and on success the `resultList` entry.  `none` models `continue`/no append. -/
def processCandidate (targetId buildType : String) (targetObj : TargetObj)
    (r : AlignResult) (matchD : MatchD) (modelId modelPath today : String) :
    Option ResultEntry :=
  if r.nAtomsRef == 0 && r.nAtomsFit == 0 then none
  else if r.isSkipped then none
  else if !(codAcceptOk r) then none
  else
    match writeModel targetId buildType targetObj r.fitFD r.fitXyzMapD
        r.fitAtomUnMappedL matchD modelId today with
    | none => none
    | some md =>
        some
          { modelId := modelId, searchId := targetId, parentId := matchD.parentId,
            matchId := matchD.queryId, matchDB := "COD", modelPath := modelPath,
            rFactor := matchD.rValue,
            hasDisorder :=
              match matchD.hasDisorder with
              | some s => if 0 < s.length then s else "N"
              | none => "N",
            variantType := md.variantType }

/-! ### Assembly-stage data model (ChemCompModelAssemble.py)

The active `assemble` method (lines 42-108) together with its helpers
`__addPriorMatchDetails`, `__updateVariantDetails`, `__makePublicModelId`,
`__replaceModelId` and `__updateAuditDate`.  An mmCIF data container whose
datablock name is the local model id is represented by its model-index entry;
the relabelling/audit-date rewrite of a container is represented by an
`Assignment` value. -/

/-- One model-index entry (`mD`).  `priorModelId`/`priorMatchDate` are the
keys added by `__addPriorMatchDetails`; before that pass runs the keys are
absent in the source, modelled here by `""`/`none` initial values. -/
structure MEntry where
  modelId : String
  matchId : String
  variantType : String
  rFactor : Int
  priorModelId : String
  priorMatchDate : Option String
  deriving Repr, DecidableEq

/-- One prior-audit record as returned by `ChemCompModelProvider.getAuditDetails`
(out-of-scope provider): published model id, source database name and code, and
the audit dates in order (only the last one is read). -/
structure PriorRecord where
  modelId : String
  dbName : String
  dbCode : String
  auditDates : List String
  deriving Repr, DecidableEq

/-- The observable outcome of the relabelling loop for one data container:
the container's old (local) id, the public id written by `__replaceModelId`,
the sequence number that public id carries, and, for continuity reuse, the
prior audit date written by `__updateAuditDate` (`none` means the container's
own build-time audit date is left unchanged). -/
structure Assignment where
  localModelId : String
  publicModelId : String
  seqNum : Nat
  auditDate : Option String
  deriving Repr, DecidableEq

/-- The inner body of `__addPriorMatchDetails` for one prior record: a model
matching `(db_name, db_code)` receives the record's model id and last audit
date; every other model's `priorModelId` is reset to `"Znone"` (note that the
reset happens on every non-matching record, destroying any assignment made by
an earlier record of the same parent; `priorMatchDate` is not reset).  The
current database name is hardcoded to `"CSD"` in the source (the
`mD["matchDb"]` read is commented out). -/
def applyPriorRecord (p : PriorRecord) (mD : MEntry) : MEntry :=
  if p.dbName == "CSD" && mD.matchId == p.dbCode then
    { mD with priorModelId := p.modelId, priorMatchDate := some (p.auditDates.getLastD "") }
  else
    { mD with priorModelId := "Znone" }

/-- The prior-record loop of `__addPriorMatchDetails` for one parent: records
are applied in order, each one rewriting every model entry. -/
def addPriorForParent (priorL : List PriorRecord) (mDL : List MEntry) : List MEntry :=
  priorL.foldl (fun acc p => acc.map (applyPriorRecord p)) mDL

/-- Source `__addPriorMatchDetails` (lines 123-150): parents present in the
prior-audit index run the record loop; parents absent from it have every
model's `priorModelId` set to `"Znone"`. -/
def addPriorMatchDetails (priorMatchLD : List (String × List PriorRecord))
    (modelIndexD : List (String × List MEntry)) : List (String × List MEntry) :=
  modelIndexD.map (fun pl =>
    match dictFind priorMatchLD pl.1 with
    | some priorL => (pl.1, addPriorForParent priorL pl.2)
    | none => (pl.1, pl.2.map (fun mD => { mD with priorModelId := "Znone" })))

/-- Source `__updateVariantDetails` (lines 152-158): a falsy (empty) variant
type becomes `"Anone"`. -/
def updateVariantDetails (modelIndexD : List (String × List MEntry)) :
    List (String × List MEntry) :=
  modelIndexD.map (fun pl =>
    (pl.1, pl.2.map (fun mD =>
      if mD.variantType == "" then { mD with variantType := "Anone" } else mD)))

/-- The sort key comparison of `sorted(mDL, key=itemgetter("priorModelId",
"variantType", "rFactor"))`: ascending lexicographic tuple order. -/
def entryKeyLe (a b : MEntry) : Bool :=
  strLt a.priorModelId b.priorModelId ||
    (a.priorModelId == b.priorModelId &&
      (strLt a.variantType b.variantType ||
        (a.variantType == b.variantType && decide (a.rFactor ≤ b.rFactor))))

/-- Stable insertion: the new element is placed after every existing element
`y` with `le y x`, i.e. after all elements ordered before-or-equal to it. -/
def stableInsert {α : Type} (le : α → α → Bool) (x : α) : List α → List α
  | [] => [x]
  | y :: ys => if le y x then y :: stableInsert le x ys else x :: y :: ys

/-- Stable ascending sort modelling Python's `sorted`: elements are inserted
left to right, each landing after previously-inserted equals. -/
def stableSort {α : Type} (le : α → α → Bool) (l : List α) : List α :=
  l.foldl (fun acc x => stableInsert le x acc) []

/-- The filter loop of `assemble` (lines 63-81) over one parent's sorted
entries, threading the running canonical counter `numStd`: the counter is
incremented for every canonical (`variantType.startswith("A")`) entry *before*
the R-factor test, an entry with `rFactor > maxRFactor` is skipped, a
non-canonical entry is skipped once `numStd` is positive, and every other
entry is retained (its container is imported and appended). -/
def selectModels (maxR : Int) : Nat → List MEntry → List MEntry
  | _, [] => []
  | numStd, mD :: rest =>
      let isStd := strStartsWith mD.variantType "A"
      let numStd2 := if isStd then numStd + 1 else numStd
      if maxR < mD.rFactor then selectModels maxR numStd2 rest
      else if numStd2 != 0 && !isStd then selectModels maxR numStd2 rest
      else mD :: selectModels maxR numStd2 rest

/-- The `priorMapD` built during the filter loop: retained entries whose
`priorModelId` does not start with `"Z"` map their local model id to the prior
public id and prior audit date. -/
def priorMapOf (selected : List MEntry) : List (String × (String × String)) :=
  selected.filterMap (fun mD =>
    if strStartsWith mD.priorModelId "Z" then none
    else some (mD.modelId, (mD.priorModelId, mD.priorMatchDate.getD "")))

/-- Python `tModelId.split("_")[1].split("|")[0]`: the parent chemical
component id encoded in a local model id. -/
def parentOfModelId (modelId : String) : String :=
  String.mk ((charsSplitOn '|' ((charsSplitOn '_' modelId.data).getD 1 [])).getD 0 [])

/-- Python `int(modelId.split("_")[2])`: the sequence number of a model id.
A malformed id raises in the source; here it yields 0 and all theorems are
applied to well-formed ids only. -/
def seqOfModelId (modelId : String) : Nat :=
  (charsToNat ((charsSplitOn '_' modelId.data).getD 2 [])).getD 0

/-- Zero-padding to five digits, Python `"%05d" % n`. -/
def pad5 (n : Nat) : String :=
  let s := toString n
  String.mk (List.replicate (5 - s.length) '0') ++ s

/-- Source `__makePublicModelId`. -/
def makePublicModelId (parentId : String) (modelNum : Nat) : String :=
  "M_" ++ parentId ++ "_" ++ pad5 modelNum

/-- Boolean `≤` on `Nat`, the comparison used by `sorted(priorIdLD[pId])`. -/
def natLeB (a b : Nat) : Bool := decide (a ≤ b)

/-- The relabelling loop of `assemble` (lines 86-103).  State: the per-parent
counter dictionary `parentModelCountD` (a `defaultdict(int)`) and the
per-parent reused-sequence-number lists `priorIdLD`, both modelled as total
functions updated pointwise.  A container found in `priorMapD` keeps the prior
public id and takes the prior audit date, and the parent counter becomes the
maximum reused number so far (`sorted(priorIdLD[pId])[-1]`); any other
container is freshly numbered with `parentModelCountD[pId] + 1`. -/
def relabelGo (priorMapD : List (String × (String × String))) :
    (String → Nat) → (String → List Nat) → List String → List Assignment
  | _, _, [] => []
  | parentCountD, priorIdLD, tModelId :: rest =>
      let pId := parentOfModelId tModelId
      match dictFind priorMapD tModelId with
      | some pr =>
          let pCount := seqOfModelId pr.1
          let priorIdL := priorIdLD pId ++ [pCount]
          let newCount := (stableSort natLeB priorIdL).getLastD 0
          { localModelId := tModelId, publicModelId := pr.1, seqNum := pCount,
            auditDate := some pr.2 } ::
            relabelGo priorMapD (fun q => if q = pId then newCount else parentCountD q)
              (fun q => if q = pId then priorIdL else priorIdLD q) rest
      | none =>
          let c := parentCountD pId + 1
          { localModelId := tModelId, publicModelId := makePublicModelId pId c,
            seqNum := c, auditDate := none } ::
            relabelGo priorMapD (fun q => if q = pId then c else parentCountD q)
              priorIdLD rest

/-- The list of retained (imported) model entries of one assembly run, in
container order: prior-match and variant enrichment, then per parent the
sorted filter loop, concatenated in model-index order (source lines 54-81). -/
def assembledEntries (modelIndexD : List (String × List MEntry))
    (priorMatchLD : List (String × List PriorRecord)) (maxR : Int) : List MEntry :=
  ((updateVariantDetails (addPriorMatchDetails priorMatchLD modelIndexD)).map
    (fun pl => selectModels maxR 0 (stableSort entryKeyLe pl.2))).flatten

/-- Source `assemble` (lines 42-108), reduced to its observable identifier
work: the retained containers are relabelled in order, yielding for each one
its public model id and (for continuity reuse) the overwritten audit date. -/
def assemble (modelIndexD : List (String × List MEntry))
    (priorMatchLD : List (String × List PriorRecord)) (maxR : Int) : List Assignment :=
  relabelGo (priorMapOf (assembledEntries modelIndexD priorMatchLD maxR))
    (fun _ => 0) (fun _ => []) ((assembledEntries modelIndexD priorMatchLD maxR).map (fun e => e.modelId))

/-! ### Concrete example data

Small closed inputs used by the counterexample and witness theorems below. -/

/-- Example fit atom with a given name (carbon, neutral, at the origin). -/
def exFit (nm : String) : FitAtom :=
  { atName := nm, atType := "C", atFormalCharge := 0, x := 0, y := 0, z := 0 }

/-- Example fit feature dictionary with all required keys present. -/
def exFD : FitFD :=
  { keys := ["xyz", "SMILES", "SMILES_STEREO", "InChI", "InChIKey"],
    smiles := "CC", smilesStereo := "CCstereo", inchi := "inchi", inchiKey := "ikey",
    xyz := [exFit "Cf1", exFit "Cf2"] }

/-- Example two-carbon reference definition. -/
def exTgt : TargetObj :=
  { name := "ABC", atoms := [{ atName := "C1", atType := "C" }, { atName := "C2", atType := "C" }],
    bonds := [{ at1 := "C1", at2 := "C2", bType := "SING" }] }

/-- Example reference definition with a hydrogen (used to exercise the
heavy-atoms-only flag). -/
def exTgtH : TargetObj :=
  { name := "ABC", atoms := [{ atName := "C1", atType := "C" }, { atName := "H1", atType := "H" }],
    bonds := [{ at1 := "C1", at2 := "H1", bType := "SING" }] }

/-- Example candidate metadata. -/
def exMatchD : MatchD :=
  { queryId := some "1234567", parentId := "ABC", rValue := some "0.05",
    hasDisorder := none, publicationDOI := none, version := none, radiationSource := none }

/-- Example unmapped extra proton whose neighbour is the mapped fit atom `Cf1`. -/
def exUH : UnmappedAtom :=
  { fitAtNo := 1, fitAtType := "H", fitAtName := "Hx", fitAtFormalCharge := 0,
    x := 0, y := 0, z := 0, fitNeighbors := ["Cf1"] }

/-- Example unmapped extra proton whose recorded neighbour `Zq` is not a mapped
fit atom. -/
def exUHBad : UnmappedAtom :=
  { fitAtNo := 1, fitAtType := "H", fitAtName := "Hx", fitAtFormalCharge := 0,
    x := 0, y := 0, z := 0, fitNeighbors := ["Zq"] }

/-- Example unmapped non-hydrogen (carbon) fit atom. -/
def exUC : UnmappedAtom :=
  { fitAtNo := 6, fitAtType := "C", fitAtName := "Cx", fitAtFormalCharge := 0,
    x := 0, y := 0, z := 0, fitNeighbors := ["Cf1"] }

/-- Example single-atom alignment: full reference coverage
(`nAtomsRef = len(atomMap) = 1`) with equal `SMILES_STEREO` descriptors. -/
def exR1 : AlignResult :=
  { nAtomsRef := 1, nAtomsFit := 3, refSmilesStereo := "CCstereo", fitFD := exFD,
    fitXyzMapD := [("C1", exFit "Cf1")], fitAtomUnMappedL := [], isSkipped := false }

/-- Example full-coverage alignment of `exTgt` with two mapped atoms and equal
`SMILES_STEREO` descriptors. -/
def exR2 : AlignResult :=
  { nAtomsRef := 2, nAtomsFit := 2, refSmilesStereo := "CCstereo", fitFD := exFD,
    fitXyzMapD := [("C1", exFit "Cf1"), ("C2", exFit "Cf2")],
    fitAtomUnMappedL := [], isSkipped := false }

/-- Like `exR2` but with one unmapped extra proton. -/
def exR2H : AlignResult :=
  { exR2 with nAtomsFit := 3, fitAtomUnMappedL := [exUH] }

/-- Like `exR2` but with one unmapped non-hydrogen (carbon) atom. -/
def exR2C : AlignResult :=
  { exR2 with nAtomsFit := 3, fitAtomUnMappedL := [exUC] }

/-- Assembly index entry builder: canonical (empty) variant, R-factor 1. -/
def exEntry (mid mat : String) : MEntry :=
  { modelId := mid, matchId := mat, variantType := "", rFactor := 1,
    priorModelId := "", priorMatchDate := none }

/-- Assembly index entry builder with explicit variant type and R-factor. -/
def exEntryV (mid mat vt : String) (rf : Int) : MEntry :=
  { modelId := mid, matchId := mat, variantType := vt, rFactor := rf,
    priorModelId := "", priorMatchDate := none }

/-- Prior audit record builder (CSD source). -/
def exPrior (mid code date : String) : PriorRecord :=
  { modelId := mid, dbName := "CSD", dbCode := code, auditDates := [date] }

/-- C2 failing input, model index: two models of parent `ABC` matching the two
prior records `X1` and `X2`. -/
def exC2Index : List (String × List MEntry) :=
  [("ABC", [exEntry "Q_ABC_00001" "X1", exEntry "Q_ABC_00002" "X2"])]

/-- C2 failing input, prior audit: two prior records for `ABC`. -/
def exC2Prior : List (String × List PriorRecord) :=
  [("ABC", [exPrior "M_ABC_00001" "X1" "2021-01-01", exPrior "M_ABC_00002" "X2" "2021-02-02"])]

/-- C1 counterexample index: two models of parent `ABC` sharing match id `X1`. -/
def exC1Index : List (String × List MEntry) :=
  [("ABC", [exEntry "Q_ABC_00001" "X1", exEntry "Q_ABC_00002" "X1"])]

/-- C1 counterexample prior audit: one prior record matching `X1`. -/
def exC1Prior : List (String × List PriorRecord) :=
  [("ABC", [exPrior "M_ABC_00007" "X1" "2020-05-05"])]

/-- C4 counterexample index: a tautomer with a prior public identity and a
canonical model without one, for parent `AAA`. -/
def exC4Index : List (String × List MEntry) :=
  [("AAA", [exEntryV "Q_AAA_00001" "T1" "tautomer_protomer" 1, exEntryV "Q_AAA_00002" "C1" "" 1])]

/-- C4 counterexample prior audit for parent `AAA`. -/
def exC4Prior : List (String × List PriorRecord) :=
  [("AAA", [exPrior "M_AAA_00001" "T1" "2020-01-01"])]

/-- C4 counterexample second index: a canonical model over the R-factor limit
followed (in sort order) by a good tautomer, for parent `BBB`. -/
def exC4IndexB : List (String × List MEntry) :=
  [("BBB", [exEntryV "Q_BBB_00001" "C2" "" 100, exEntryV "Q_BBB_00002" "T2" "tautomer_protomer" 1])]

/-- C5 counterexample index: two canonical models of parent `CCC` sharing
match id `X1` (no prior records). -/
def exC5Index : List (String × List MEntry) :=
  [("CCC", [exEntryV "Q_CCC_00001" "X1" "" 1, exEntryV "Q_CCC_00002" "X1" "" 2])]

/-- Enriched canonical entry (as it looks after variant/prior enrichment),
used by the selection-stage witnesses. -/
def exSelStd (mid mat : String) (rf : Int) : MEntry :=
  { modelId := mid, matchId := mat, variantType := "Anone", rFactor := rf,
    priorModelId := "Znone", priorMatchDate := none }

/-- Enriched tautomer entry used by the selection-stage witnesses. -/
def exSelTaut (mid mat : String) (rf : Int) : MEntry :=
  { modelId := mid, matchId := mat, variantType := "tautomer_protomer", rFactor := rf,
    priorModelId := "Znone", priorMatchDate := none }

/-- The two-carbon full-coverage atom map used by the write-stage examples. -/
def exMapCC : List (String × FitAtom) := [("C1", exFit "Cf1"), ("C2", exFit "Cf2")]

/-- Concrete sorted prefix used by the C4 witness: a tautomer followed by a
canonical entry. -/
def exC4L1 : List MEntry := [exSelTaut "Q_DDD_00001" "T1" 1, exSelStd "Q_DDD_00002" "C1" 1]

/-- Concrete sorted suffix used by the C4 witness. -/
def exC4L2 : List MEntry := [exSelTaut "Q_DDD_00003" "T2" 1]

/-! ### Relabelling-invariant definitions (claim C1) -/

def consecFrom (s : Nat) : Nat → List Nat
  | 0 => []
  | k + 1 => (s + 1) :: consecFrom (s + 1) k

/-- Per-entry view of the prior-record fold of one parent. -/
def applyPriorsE (ps : List PriorRecord) (e : MEntry) : MEntry :=
  ps.foldl (fun a p => applyPriorRecord p a) e

/-- The C1 numbering invariant for the assignments of one parent: no two
assignments carry the same sequence number, and every freshly minted number
(no audit-date overwrite) strictly exceeds every reused number (audit-date
overwritten from the prior record). -/
def monotonicFor (asgn : List Assignment) : Prop :=
  ((asgn.map (fun a => a.seqNum)).Nodup)
    ∧ ∀ a ∈ asgn, ∀ b ∈ asgn, a.auditDate = none → b.auditDate.isSome = true →
        b.seqNum < a.seqNum

/-- The per-parent enrichment applied by `assemble` before sorting: the prior
match pass (`__addPriorMatchDetails`) followed by the variant normalisation
(`__updateVariantDetails`). -/
def enrichFor (P : List (String × List PriorRecord)) (pl : String × List MEntry) :
    List MEntry :=
  List.map
    (fun mD => if mD.variantType == "" then { mD with variantType := "Anone" } else mD)
    (match dictFind P pl.1 with
      | some priorL => addPriorForParent priorL pl.2
      | none => pl.2.map (fun mD => { mD with priorModelId := "Znone" }))

/-- The retained entries of one parent: enrichment, sort, filter loop. -/
def groupSel (P : List (String × List PriorRecord)) (maxR : Int)
    (pl : String × List MEntry) : List MEntry :=
  selectModels maxR 0 (stableSort entryKeyLe (enrichFor P pl))

/-! ## Theorems

General lemmas about the embedded functions, followed by the per-claim
theorems, counterexamples and witnesses. -/

/-- An unmapped atom with atomic number other than 1 fails the protonation
test. -/
theorem testUnMappedProtonation_eq_false {L : List UnmappedAtom} {u : UnmappedAtom}
    (hu : u ∈ L) (hno : u.fitAtNo ≠ 1) : testUnMappedProtonation L = false := by
  simp only [testUnMappedProtonation, List.all_eq_false]
  exact ⟨u, hu, by simpa using hno⟩

/-- The model write fails outright when the protonation test fails (source
line 477-479). -/
theorem writeModel_eq_none_of_nonH (tid bt : String) (tgt : TargetObj) (fd : FitFD)
    (m : List (String × FitAtom)) (L : List UnmappedAtom) (mD : MatchD) (mid today : String)
    (h : testUnMappedProtonation L = false) :
    writeModel tid bt tgt fd m L mD mid today = none := by
  simp [writeModel, h]

/-- The model write fails outright when some unmapped atom records a
neighbour that is not a mapped fit atom (source lines 484-494). -/
theorem writeModel_eq_none_of_bad_neighbor (tid bt : String) (tgt : TargetObj) (fd : FitFD)
    (m : List (String × FitAtom)) (L : List UnmappedAtom) (mD : MatchD) (mid today : String)
    (u : UnmappedAtom) (nm : String) (hu : u ∈ L) (hnm : nm ∈ u.fitNeighbors)
    (hmap : dictContains (fitAtMapOf m) nm = false) :
    writeModel tid bt tgt fd m L mD mid today = none := by
  by_cases h1 : testUnMappedProtonation L
  · have hL : L.isEmpty = false := by
      cases L with
      | nil => cases hu
      | cons a as => rfl
    have h2 : unmappedNeighborsMapped (fitAtMapOf m) L = false := by
      simp only [unmappedNeighborsMapped, List.all_eq_false, Bool.not_eq_true]
      exact ⟨u, hu, ⟨nm, hnm, hmap⟩⟩
    simp [writeModel, h1, hL, h2]
  · exact writeModel_eq_none_of_nonH tid bt tgt fd m L mD mid today
      (Bool.not_eq_true _ ▸ eq_false_of_ne_true h1)

/-- Shape of a successful model write: when all three guards pass, the write
produces exactly the record assembled from the mapped and synthetic rows. -/
theorem writeModel_eq_some (tid bt : String) (tgt : TargetObj) (fd : FitFD)
    (m : List (String × FitAtom)) (L : List UnmappedAtom) (mD : MatchD) (mid today : String)
    (h1 : testUnMappedProtonation L = true)
    (h2 : unmappedNeighborsMapped (fitAtMapOf m) L = true)
    (h3 : requiredKeysPresent fd = true) :
    writeModel tid bt tgt fd m L mD mid today = some
      { modelId := mid
        compId := parentIdOfTarget tid
        atomRows := mappedAtomRowsFrom mid m 0 tgt.atoms
          ++ synthAtomRows mid (mappedAtomRowsFrom mid m 0 tgt.atoms).length L
        bondRows := mappedBondRowsFrom mid m 0 tgt.bonds
          ++ synthBondRows mid (mappedBondRowsFrom mid m 0 tgt.bonds).length (fitAtMapOf m) L
        descriptorRows :=
          [("SMILES", fd.smiles), ("SMILES_CANONICAL", fd.smilesStereo),
           ("InChI", fd.inchi), ("InChIKey", fd.inchiKey)]
        referenceRows :=
          match mD.queryId with
          | some q => [("COD", q)]
          | none => []
        featureRows := featureRowsOf mD (skippedRefTypes tgt.atoms m)
          (if !L.isEmpty then "tautomer_protomer" else getBuildVariant bt)
        auditRows := [("Initial release", today)]
        variantType := if !L.isEmpty then "tautomer_protomer" else getBuildVariant bt } := by
  simp [writeModel, h1, h2, h3]

/-- The mapped-atom loop emits exactly the names of the reference atoms found
in the map, in declaration order, whatever the starting row counter is. -/
theorem mappedAtomRowsFrom_names (mid : String) (m : List (String × FitAtom)) :
    ∀ (jj : Nat) (atoms : List RefAtom),
      (mappedAtomRowsFrom mid m jj atoms).map (fun a => a.atomId)
        = (atoms.filter (fun a => dictContains m a.atName)).map (fun a => a.atName)
  | _, [] => rfl
  | jj, a :: rest => by
      cases hf : dictFind m a.atName with
      | none =>
          simp only [mappedAtomRowsFrom, hf, List.filter_cons, dictContains, Option.isSome_none]
          simpa using mappedAtomRowsFrom_names mid m jj rest
      | some v =>
          simp only [mappedAtomRowsFrom, hf, List.filter_cons, dictContains, Option.isSome_some]
          simpa using mappedAtomRowsFrom_names mid m (jj + 1) rest

/-- The build-variant classifier only produces the two classification
strings. -/
theorem getBuildVariant_cases (bt : String) :
    getBuildVariant bt = "" ∨ getBuildVariant bt = "tautomer_protomer" := by
  unfold getBuildVariant
  split_ifs <;> simp

/-- If the skipped-type set is exactly the singleton hydrogen set, the feature
table records the `heavy_atoms_only` flag. -/
theorem featureRowsOf_mem_heavy (mD : MatchD) (types : List String) (v : String)
    (hcond : (types.length == 1 && types.contains "H") = true) :
    ("heavy_atoms_only", "Y") ∈ featureRowsOf mD types v := by
  have hp : types.length = 1 ∧ "H" ∈ types := by simpa using hcond
  simp [featureRowsOf, hp.1, hp.2]

/-- When the singleton-hydrogen condition fails, no feature row carries the
name `heavy_atoms_only` (given the variant string is one of the two values the
pipeline produces). -/
theorem featureRowsOf_names (mD : MatchD) (types : List String) (v : String)
    (hv : v = "" ∨ v = "tautomer_protomer")
    (hcond : (types.length == 1 && types.contains "H") = false) :
    ∀ pr ∈ featureRowsOf mD types v, pr.1 ≠ "heavy_atoms_only" := by
  intro pr hpr
  simp only [featureRowsOf, List.mem_append] at hpr
  rcases hpr with ((((h | h) | h) | h) | h) | h
  · cases hdoi : mD.publicationDOI <;> rw [hdoi] at h
    · simp at h
    · rename_i val
      by_cases hl : 0 < val.length <;> simp [hl] at h
      rw [h]; simp
  · cases hrv : mD.rValue <;> rw [hrv] at h
    · simp at h
    · rename_i val
      by_cases hl : 0 < val.length <;> simp [hl] at h
      rw [h]; simp
  · by_cases hc : (match mD.hasDisorder with | some s => s == "Y" | none => false) = true <;>
      simp [hc] at h
    rw [h]; simp
  · by_cases hc : (match mD.radiationSource with | some s => strContainsSub s "neutron" | none => false) = true <;>
      simp [hc] at h
    rw [h]; simp
  · rw [hcond] at h
    simp at h
    rw [h]; simp
  · rcases hv with hv | hv <;> subst hv
    · simp at h
    · rw [if_pos (by decide : 0 < "tautomer_protomer".length)] at h
      simp at h
      rw [h]; simp

/-- The feature table contains the `heavy_atoms_only` name exactly when the
skipped-type set is the singleton hydrogen set. -/
theorem featureRowsOf_heavy_contains (mD : MatchD) (types : List String) (v : String)
    (hv : v = "" ∨ v = "tautomer_protomer") :
    ((featureRowsOf mD types v).map Prod.fst).contains "heavy_atoms_only"
      = (types.length == 1 && types.contains "H") := by
  cases hcond : (types.length == 1 && types.contains "H") with
  | true =>
      have hm : "heavy_atoms_only" ∈ (featureRowsOf mD types v).map Prod.fst :=
        List.mem_map_of_mem Prod.fst (featureRowsOf_mem_heavy mD types v hcond)
      exact List.elem_eq_true_of_mem hm
  | false =>
      refine Bool.eq_false_iff.mpr (fun hcontains => ?_)
      have hm : "heavy_atoms_only" ∈ (featureRowsOf mD types v).map Prod.fst :=
        List.elem_iff.mp hcontains
      obtain ⟨pr, hpr, hfst⟩ := List.mem_map.mp hm
      exact featureRowsOf_names mD types v hv hcond pr hpr hfst

/-- On a duplicate-free type list, the source's singleton-hydrogen test agrees
with "non-empty and every element is hydrogen". -/
theorem heavy_cond_eq (types : List String) (hnd : types.Nodup) :
    (types.length == 1 && types.contains "H")
      = (!types.isEmpty && types.all (fun t => t == "H")) := by
  match types, hnd with
  | [], _ => rfl
  | [a], _ =>
      simp only [List.length_singleton, List.isEmpty_cons, List.all_cons, List.all_nil,
        List.contains_cons, List.contains_nil, Bool.or_false, Bool.and_true, Bool.not_false,
        Bool.true_and]
      exact Bool.beq_comm
  | a :: b :: rest, hnd =>
      have hlen : ((a :: b :: rest).length == 1) = false := by simp
      rw [hlen, Bool.false_and]
      cases hall : (a :: b :: rest).all (fun t => t == "H") with
      | false => simp [hall]
      | true =>
          exfalso
          have hmem := List.all_eq_true.mp hall
          have h1 : a = "H" := by simpa [beq_iff_eq] using hmem a (by simp)
          have h2 : b = "H" := by simpa [beq_iff_eq] using hmem b (by simp)
          rw [List.nodup_cons] at hnd
          exact hnd.1 (by rw [h1, ← h2]; simp)

/-- C6 (amended): an alignment with full reference coverage
(`nAtomsRef = len(atomMap)`), matching `SMILES_STEREO` descriptors and at
least two mapped atoms is accepted by the acceptance tests; and when it also
has no unmapped fit atoms, a successful model write records the reference's
own build variant (canonical, i.e. the empty classification, whenever the
reference is not itself a tautomer/protomer build). -/
theorem c6_full_coverage_accept (r : AlignResult) (tid bt : String) (tgt : TargetObj)
    (mD : MatchD) (mid today : String)
    (hn : r.nAtomsRef = r.fitXyzMapD.length)
    (hsm : r.refSmilesStereo = r.fitFD.smilesStereo)
    (h2 : 2 ≤ r.fitXyzMapD.length)
    (hkeys : requiredKeysPresent r.fitFD = true) :
    codAcceptOk r = true ∧
    (r.fitAtomUnMappedL = [] →
      (writeModel tid bt tgt r.fitFD r.fitXyzMapD r.fitAtomUnMappedL mD mid today).map
        (fun md => md.variantType) = some (getBuildVariant bt)) := by
  constructor
  · have hb : (r.nAtomsRef == r.fitXyzMapD.length) = true := by simp [hn]
    have hs : (r.refSmilesStereo == r.fitFD.smilesStereo) = true := by simp [hsm]
    have hlt : ¬ (r.fitXyzMapD.length < 2) := by omega
    simp [codAcceptOk, hb, hs, hlt]
  · intro hL
    rw [hL]
    rw [writeModel_eq_some tid bt tgt r.fitFD r.fitXyzMapD [] mD mid today rfl rfl hkeys]
    simp

/-- C6 counterexample: the claim as stated fails twice on the code.  First, a
full-coverage single-atom alignment with equal `SMILES_STEREO` descriptors is
rejected (the `len(atomMap) < 2` override).  Second, a full-coverage
two-atom alignment with equal descriptors and one unmapped proton is accepted
but its written variant is `tautomer_protomer`, not canonical, so acceptance
is not "variant canonical regardless of unmappedFitAtoms content". -/
theorem c6_counterexample :
    (exR1.nAtomsRef = exR1.fitXyzMapD.length ∧ exR1.refSmilesStereo = exR1.fitFD.smilesStereo
      ∧ codAcceptOk exR1 = false)
    ∧ (exR2H.nAtomsRef = exR2H.fitXyzMapD.length ∧ exR2H.refSmilesStereo = exR2H.fitFD.smilesStereo
      ∧ codAcceptOk exR2H = true
      ∧ (writeModel "ABC" "" exTgt exR2H.fitFD exR2H.fitXyzMapD exR2H.fitAtomUnMappedL
            exMatchD "M_ABC_00001" "2021-03-03").map (fun md => md.variantType)
          = some "tautomer_protomer") := by decide

/-- C6 witness: the amended theorem applied to the concrete two-atom
full-coverage alignment `exR2`. -/
theorem c6_witness :
    codAcceptOk exR2 = true ∧
    (exR2.fitAtomUnMappedL = [] →
      (writeModel "ABC" "" exTgt exR2.fitFD exR2.fitXyzMapD exR2.fitAtomUnMappedL
          exMatchD "M_ABC_00001" "2021-03-03").map (fun md => md.variantType)
        = some (getBuildVariant "")) :=
  c6_full_coverage_accept exR2 "ABC" "" exTgt exMatchD "M_ABC_00001" "2021-03-03"
    (by decide) (by decide) (by decide) (by decide)

/-- C7 (amended): an alignment carrying an unmapped non-hydrogen atom never
produces a model record (the write fails), and the acceptance tests can pass
on it only through the SMILES branches, i.e. only when the `SMILES_STEREO`
descriptors are equal (the protonation branch rejects it). -/
theorem c7_unmapped_heavy_reject (r : AlignResult) (tid bt : String) (tgt : TargetObj)
    (mD : MatchD) (mid today : String) (u : UnmappedAtom)
    (hu : u ∈ r.fitAtomUnMappedL) (hno : u.fitAtNo ≠ 1) :
    writeModel tid bt tgt r.fitFD r.fitXyzMapD r.fitAtomUnMappedL mD mid today = none ∧
    (codAcceptOk r = true → r.refSmilesStereo = r.fitFD.smilesStereo) := by
  have hf := testUnMappedProtonation_eq_false hu hno
  refine ⟨writeModel_eq_none_of_nonH tid bt tgt r.fitFD r.fitXyzMapD r.fitAtomUnMappedL mD mid today hf, ?_⟩
  intro hacc
  by_contra hsm
  have hb : (r.refSmilesStereo == r.fitFD.smilesStereo) = false := by
    simp [hsm]
  simp [codAcceptOk, hb, hf] at hacc

/-- C7 counterexample: a full-coverage alignment with equal `SMILES_STEREO`
descriptors that carries an unmapped carbon atom is accepted by the
acceptance evaluation, contradicting the claim that any unmapped atom of
atomic number other than 1 forces `accepted = False`. -/
theorem c7_counterexample :
    codAcceptOk exR2C = true ∧ exUC ∈ exR2C.fitAtomUnMappedL ∧ exUC.fitAtNo ≠ 1 := by decide

/-- C7 witness: the amended theorem applied to the concrete alignment
`exR2C` with its unmapped carbon `exUC`. -/
theorem c7_witness :
    writeModel "ABC" "" exTgt exR2C.fitFD exR2C.fitXyzMapD exR2C.fitAtomUnMappedL
        exMatchD "M_ABC_00001" "2021-03-03" = none ∧
    (codAcceptOk exR2C = true → exR2C.refSmilesStereo = exR2C.fitFD.smilesStereo) :=
  c7_unmapped_heavy_reject exR2C "ABC" "" exTgt exMatchD "M_ABC_00001" "2021-03-03" exUC
    (by decide) (by decide)

/-- C8: if any unmapped fit atom records a neighbour name that is not the
name of a mapped fit atom (the neighbour is itself unmapped), the model write
fails and no model record is produced, regardless of every other acceptance
rule. -/
theorem c8_unmapped_neighbor_reject (tid bt : String) (tgt : TargetObj) (fd : FitFD)
    (m : List (String × FitAtom)) (L : List UnmappedAtom) (mD : MatchD) (mid today : String)
    (u : UnmappedAtom) (nm : String) (hu : u ∈ L) (hnm : nm ∈ u.fitNeighbors)
    (hmap : dictContains (fitAtMapOf m) nm = false) :
    writeModel tid bt tgt fd m L mD mid today = none :=
  writeModel_eq_none_of_bad_neighbor tid bt tgt fd m L mD mid today u nm hu hnm hmap

/-- C8 witness: the theorem applied to a concrete unmapped proton whose
recorded neighbour `Zq` is not mapped. -/
theorem c8_witness :
    writeModel "ABC" "" exTgt exFD exMapCC [exUHBad] exMatchD "M_ABC_00001" "2021-03-03" = none :=
  c8_unmapped_neighbor_reject "ABC" "" exTgt exFD exMapCC [exUHBad] exMatchD "M_ABC_00001"
    "2021-03-03" exUHBad "Zq" (by decide) (by decide) (by decide)

/-- C9 (amended): a model write that passes the guards emits one atom row per
reference atom present in the atom map, in reference declaration order,
silently skipping reference atoms absent from the map (followed only by the
synthetic unmapped-atom rows), and it records the `heavy_atoms_only` feature
flag exactly when at least one reference atom type was excluded and every
excluded type is hydrogen. -/
theorem c9_atom_rows_and_heavy_flag (tid bt : String) (tgt : TargetObj) (fd : FitFD)
    (m : List (String × FitAtom)) (L : List UnmappedAtom) (mD : MatchD) (mid today : String)
    (h1 : testUnMappedProtonation L = true)
    (h2 : unmappedNeighborsMapped (fitAtMapOf m) L = true)
    (h3 : requiredKeysPresent fd = true) :
    (writeModel tid bt tgt fd m L mD mid today).map
        (fun md => md.atomRows.map (fun a => a.atomId))
      = some ((tgt.atoms.filter (fun a => dictContains m a.atName)).map (fun a => a.atName)
          ++ (synthAtomRows mid (mappedAtomRowsFrom mid m 0 tgt.atoms).length L).map
              (fun a => a.atomId)) ∧
    (writeModel tid bt tgt fd m L mD mid today).map
        (fun md => (md.featureRows.map Prod.fst).contains "heavy_atoms_only")
      = some (!(skippedRefTypes tgt.atoms m).isEmpty
          && (skippedRefTypes tgt.atoms m).all (fun t => t == "H")) := by
  rw [writeModel_eq_some tid bt tgt fd m L mD mid today h1 h2 h3]
  constructor
  · simp [mappedAtomRowsFrom_names]
  · have hv : (if !L.isEmpty then "tautomer_protomer" else getBuildVariant bt) = ""
        ∨ (if !L.isEmpty then "tautomer_protomer" else getBuildVariant bt) = "tautomer_protomer" := by
      cases L with
      | nil => simpa using getBuildVariant_cases bt
      | cons a as => simp
    simp only [Option.map_some']
    rw [featureRowsOf_heavy_contains mD (skippedRefTypes tgt.atoms m) _ hv]
    rw [heavy_cond_eq (skippedRefTypes tgt.atoms m) (List.nodup_dedup _)]

/-- C9 counterexample: a successful write with full atom coverage excludes no
atom type at all, so "every atom type excluded from the atom table is
hydrogen" holds vacuously, yet the `heavy_atoms_only` flag is not recorded
(the code demands exactly one excluded type equal to hydrogen); the claim's
"exactly when" biconditional therefore fails. -/
theorem c9_counterexample :
    (writeModel "ABC" "" exTgt exFD exMapCC [] exMatchD "M_ABC_00001" "2021-03-03").map
        (fun md => (md.featureRows.map Prod.fst).contains "heavy_atoms_only") = some false
    ∧ (skippedRefTypes exTgt.atoms exMapCC).all (fun t => t == "H") = true := by decide

/-- C9 witness: the amended theorem applied to a reference with one carbon
and one hydrogen where only the carbon is mapped, so the excluded-type set is
exactly the hydrogen singleton and the flag is recorded. -/
theorem c9_witness :
    (writeModel "ABC" "" exTgtH exFD [("C1", exFit "Cf1")] [] exMatchD "M_ABC_00001"
        "2021-03-03").map (fun md => md.atomRows.map (fun a => a.atomId))
      = some ((exTgtH.atoms.filter
            (fun a => dictContains [("C1", exFit "Cf1")] a.atName)).map (fun a => a.atName)
          ++ (synthAtomRows "M_ABC_00001"
              (mappedAtomRowsFrom "M_ABC_00001" [("C1", exFit "Cf1")] 0 exTgtH.atoms).length
              []).map (fun a => a.atomId)) ∧
    (writeModel "ABC" "" exTgtH exFD [("C1", exFit "Cf1")] [] exMatchD "M_ABC_00001"
        "2021-03-03").map
        (fun md => (md.featureRows.map Prod.fst).contains "heavy_atoms_only")
      = some (!(skippedRefTypes exTgtH.atoms [("C1", exFit "Cf1")]).isEmpty
          && (skippedRefTypes exTgtH.atoms [("C1", exFit "Cf1")]).all (fun t => t == "H")) :=
  c9_atom_rows_and_heavy_flag "ABC" "" exTgtH exFD [("C1", exFit "Cf1")] [] exMatchD
    "M_ABC_00001" "2021-03-03" (by decide) (by decide) (by decide)

/-- C10: a candidate whose alignment carries an unmapped atom of atomic
number other than 1 never contributes an entry to the build result list: the
model write fails and the worker only appends entries after a successful
write. -/
theorem c10_build_output_no_heavy_unmapped (tid bt : String) (tgt : TargetObj)
    (r : AlignResult) (mD : MatchD) (mid mpath today : String) (u : UnmappedAtom)
    (hu : u ∈ r.fitAtomUnMappedL) (hno : u.fitAtNo ≠ 1) :
    processCandidate tid bt tgt r mD mid mpath today = none := by
  have hw := writeModel_eq_none_of_nonH tid bt tgt r.fitFD r.fitXyzMapD r.fitAtomUnMappedL
    mD mid today (testUnMappedProtonation_eq_false hu hno)
  unfold processCandidate
  split_ifs <;> simp [hw]

/-- C10 witness: the theorem applied to the concrete alignment `exR2C`, which
passes the acceptance tests via full coverage and matching `SMILES_STEREO`
yet carries an unmapped carbon. -/
theorem c10_witness :
    processCandidate "ABC" "" exTgt exR2C exMatchD "M_ABC_00001" "path" "2021-03-03" = none :=
  c10_build_output_no_heavy_unmapped "ABC" "" exTgt exR2C exMatchD "M_ABC_00001" "path"
    "2021-03-03" exUC (by decide) (by decide)

/-- The filter loop splits over list concatenation: the canonical counter
carried into the second part is the first part's canonical count. -/
theorem selectModels_append (maxR : Int) :
    ∀ (l1 l2 : List MEntry) (n : Nat),
      selectModels maxR n (l1 ++ l2)
        = selectModels maxR n l1
          ++ selectModels maxR (n + l1.countP (fun e => strStartsWith e.variantType "A")) l2
  | [], l2, n => by simp [selectModels]
  | mD :: rest, l2, n => by
      by_cases hstd : strStartsWith mD.variantType "A"
      · by_cases hr : maxR < mD.rFactor <;>
          simp [selectModels, hstd, hr, selectModels_append maxR rest l2,
            List.countP_cons, Nat.add_comm, Nat.add_left_comm, Nat.add_assoc]
      · by_cases hr : maxR < mD.rFactor <;> by_cases hn : n = 0 <;>
          simp [selectModels, hstd, hr, hn, selectModels_append maxR rest l2,
            List.countP_cons, Nat.add_comm, Nat.add_left_comm, Nat.add_assoc]

/-- Once the canonical counter is positive, the filter loop retains only
canonical entries: every non-canonical candidate after any examined canonical
one is rejected, whether or not that canonical entry was itself retained. -/
theorem selectModels_all_std_of_pos (maxR : Int) :
    ∀ (l : List MEntry) (n : Nat), n ≠ 0 →
      ∀ e ∈ selectModels maxR n l, strStartsWith e.variantType "A" = true
  | [], n, _ => by simp [selectModels]
  | mD :: rest, n, hn => by
      intro e he
      have hb : (n != 0) = true := by simpa using hn
      by_cases hstd : strStartsWith mD.variantType "A"
      · by_cases hr : maxR < mD.rFactor
        · rw [show selectModels maxR n (mD :: rest) = selectModels maxR (n + 1) rest by
            simp [selectModels, hstd, hr]] at he
          exact selectModels_all_std_of_pos maxR rest (n + 1) (Nat.succ_ne_zero n) e he
        · rw [show selectModels maxR n (mD :: rest) = mD :: selectModels maxR (n + 1) rest by
            simp [selectModels, hstd, hr]] at he
          rcases List.mem_cons.mp he with rfl | hmem
          · exact hstd
          · exact selectModels_all_std_of_pos maxR rest (n + 1) (Nat.succ_ne_zero n) e hmem
      · have hskip : selectModels maxR n (mD :: rest) = selectModels maxR n rest := by
          by_cases hr : maxR < mD.rFactor <;> simp [selectModels, hstd, hr, hb]
        rw [hskip] at he
        exact selectModels_all_std_of_pos maxR rest n hn e he

/-- C4 (amended): in the filter loop, once any canonical-variant model of a
parent occurs in the processed prefix (whether or not it was itself accepted,
e.g. it may have failed the R-factor test), every later non-canonical model
is rejected; hence every non-canonical model in the output already comes from
the prefix preceding the first canonical model.  A tautomer that sorts before
all canonical models (e.g. via a prior public identity) can therefore appear
in the assembled set together with accepted canonical models. -/
theorem c4_canonical_supremacy_amended (maxR : Int) (l1 l2 : List MEntry)
    (hstd : ∃ s ∈ l1, strStartsWith s.variantType "A" = true) :
    ∀ e ∈ selectModels maxR 0 (l1 ++ l2), strStartsWith e.variantType "A" = false →
      e ∈ selectModels maxR 0 l1 := by
  intro e he hns
  rw [selectModels_append] at he
  rcases List.mem_append.mp he with h | h
  · exact h
  · exfalso
    have hc : 0 < l1.countP (fun e => strStartsWith e.variantType "A") := by
      obtain ⟨s, hs, hstds⟩ := hstd
      exact List.countP_pos_iff.mpr ⟨s, hs, by simp [hstds]⟩
    have hall := selectModels_all_std_of_pos maxR l2
      (0 + l1.countP (fun e => strStartsWith e.variantType "A")) (by omega) e h
    rw [hns] at hall
    cases hall

/-- C4 counterexample: first, on `exC4Index` a tautomer with a prior public
identity sorts before the canonical model, so the final assembled set contains
a canonical model *and* a tautomer of the same parent.  Second, on
`exC4IndexB` the canonical model fails the R-factor cut yet still increments
the canonical counter, so the within-bound tautomer is rejected even though
no canonical model was accepted. -/
theorem c4_counterexample :
    (assembledEntries exC4Index exC4Prior 10).map (fun e => (e.modelId, e.variantType)) =
      [("Q_AAA_00001", "tautomer_protomer"), ("Q_AAA_00002", "Anone")]
    ∧ assembledEntries exC4IndexB [] 10 = []
    ∧ (exEntryV "Q_BBB_00002" "T2" "tautomer_protomer" 1).rFactor ≤ 10 := by decide

/-- C4 witness: the amended theorem applied to a concrete sorted list whose
second element is canonical; the leading tautomer survives into the output of
the prefix. -/
theorem c4_witness :
    exSelTaut "Q_DDD_00001" "T1" 1 ∈ selectModels 10 0 exC4L1 :=
  c4_canonical_supremacy_amended 10 exC4L1 exC4L2
    ⟨exSelStd "Q_DDD_00002" "C1" 1, by decide, by decide⟩
    (exSelTaut "Q_DDD_00001" "T1" 1) (by decide) (by decide)

/-- Every canonical entry within the R-factor bound is retained by the filter
loop, whatever the canonical counter is. -/
theorem selectModels_mem_of_std (maxR : Int) :
    ∀ (l : List MEntry) (n : Nat) (e : MEntry),
      e ∈ l → strStartsWith e.variantType "A" = true → e.rFactor ≤ maxR →
      e ∈ selectModels maxR n l
  | [], _, e, he, _, _ => absurd he (List.not_mem_nil e)
  | mD :: rest, n, e, he, hstd, hr => by
      rcases List.mem_cons.mp he with rfl | hmem
      · have hnr : ¬ (maxR < e.rFactor) := not_lt.mpr hr
        simp [selectModels, hstd, hnr]
      · have ih := fun n2 => selectModels_mem_of_std maxR rest n2 e hmem hstd hr
        by_cases hstd2 : strStartsWith mD.variantType "A"
        · by_cases hr2 : maxR < mD.rFactor <;>
            simp [selectModels, hstd2, hr2] <;>
            first
            | exact ih _
            | exact Or.inr (ih _)
        · by_cases hr2 : maxR < mD.rFactor <;> by_cases hn : n = 0 <;>
            simp [selectModels, hstd2, hr2, hn] <;>
            first
            | exact ih _
            | exact Or.inr (ih _)

/-- C5 (amended): the active assemble loop performs no duplicate-`matchId`
suppression at all: two canonical candidates of one parent that share a
`matchId` and both pass the R-factor bound are *both* retained in the
assembled output. -/
theorem c5_no_duplicate_suppression (maxR : Int) (n : Nat) (l : List MEntry) (e1 e2 : MEntry)
    (h1 : e1 ∈ l) (h2 : e2 ∈ l) (_hm : e1.matchId = e2.matchId)
    (hs1 : strStartsWith e1.variantType "A" = true) (hs2 : strStartsWith e2.variantType "A" = true)
    (hr1 : e1.rFactor ≤ maxR) (hr2 : e2.rFactor ≤ maxR) :
    e1 ∈ selectModels maxR n l ∧ e2 ∈ selectModels maxR n l :=
  ⟨selectModels_mem_of_std maxR l n e1 h1 hs1 hr1,
   selectModels_mem_of_std maxR l n e2 h2 hs2 hr2⟩

/-- C5 counterexample: the full pipeline retains both same-`matchId`
candidates of parent `CCC`, contradicting the claim that only the
higher-priority occurrence appears. -/
theorem c5_counterexample :
    (assembledEntries exC5Index [] 10).map (fun e => (e.modelId, e.matchId)) =
      [("Q_CCC_00001", "X1"), ("Q_CCC_00002", "X1")] := by decide

/-- C5 witness: the amended theorem applied to two concrete same-`matchId`
canonical entries. -/
theorem c5_witness :
    exSelStd "Q_CCC_00001" "X1" 1
        ∈ selectModels 10 0 [exSelStd "Q_CCC_00001" "X1" 1, exSelStd "Q_CCC_00002" "X1" 2]
    ∧ exSelStd "Q_CCC_00002" "X1" 2
        ∈ selectModels 10 0 [exSelStd "Q_CCC_00001" "X1" 1, exSelStd "Q_CCC_00002" "X1" 2] :=
  c5_no_duplicate_suppression 10 0 _ _ _ (by decide) (by decide) (by decide) (by decide)
    (by decide) (by decide) (by decide)

/-- C2: evaluation of the assembly at the failing input.  Parent `ABC` has
two prior audit records; the model matching the first record ends up with
`priorModelId = "Znone"` (the second record's pass overwrote the link), so it
is freshly renumbered as `M_ABC_00003` with no audit-date reuse, instead of
re-emitting `M_ABC_00001` with its original date as the claim requires. -/
theorem c2_prior_reuse_bug :
    assemble exC2Index exC2Prior 10 =
      [{ localModelId := "Q_ABC_00002", publicModelId := "M_ABC_00002", seqNum := 2,
         auditDate := some "2021-02-02" },
       { localModelId := "Q_ABC_00001", publicModelId := "M_ABC_00003", seqNum := 3,
         auditDate := none }]
    ∧ (addPriorMatchDetails exC2Prior exC2Index).map
        (fun pl => pl.2.map (fun e => e.priorModelId)) = [["Znone", "M_ABC_00002"]] := by decide

/-- C3: the assembly's public identifier assignments and audit dates are a
deterministic function of the model index, the prior-audit index and the
R-factor bound, so two runs on identical inputs produce identical results.
(The only run-dependent values in the source are the output file name and the
advisory log, neither of which touches identifiers or dates.) -/
theorem c3_assemble_deterministic (i1 i2 : List (String × List MEntry))
    (p1 p2 : List (String × List PriorRecord)) (r1 r2 : Int)
    (hi : i1 = i2) (hp : p1 = p2) (hr : r1 = r2) :
    assemble i1 p1 r1 = assemble i2 p2 r2 := by
  subst hi; subst hp; subst hr; rfl

/-- C3 witness: two runs on the concrete C2 input agree. -/
theorem c3_witness :
    assemble exC2Index exC2Prior 10 = assemble exC2Index exC2Prior 10 :=
  c3_assemble_deterministic exC2Index exC2Index exC2Prior exC2Prior 10 10 rfl rfl rfl

/-- C1 counterexample: two models of parent `ABC` share a `matchId`, both
reuse the same prior identifier `M_ABC_00007`, and the run assigns the
sequence number 7 twice for that parent — the claimed duplicate-freeness
fails. -/
theorem c1_counterexample :
    ((assemble exC1Index exC1Prior 10).filter
        (fun a => parentOfModelId a.localModelId == "ABC")).map (fun a => a.seqNum) = [7, 7]
    ∧ ¬ ((((assemble exC1Index exC1Prior 10).filter
        (fun a => parentOfModelId a.localModelId == "ABC")).map (fun a => a.seqNum)).Nodup) := by
  decide

theorem lt_of_mem_consecFrom : ∀ (k s : Nat) (x : Nat), x ∈ consecFrom s k → s < x
  | 0, s, x, h => absurd h (List.not_mem_nil x)
  | k + 1, s, x, h => by
      rcases List.mem_cons.mp h with rfl | h2
      · omega
      · have := lt_of_mem_consecFrom k (s + 1) x h2
        omega

theorem nodup_consecFrom : ∀ (k s : Nat), (consecFrom s k).Nodup
  | 0, s => List.nodup_nil
  | k + 1, s => by
      rw [consecFrom, List.nodup_cons]
      exact ⟨fun hmem => absurd (lt_of_mem_consecFrom k (s + 1) _ hmem) (by omega),
        nodup_consecFrom k (s + 1)⟩

theorem charListLt_irrefl : ∀ (l : List Char), charListLt l l = false
  | [] => rfl
  | c :: rest => by
      simp only [charListLt, lt_irrefl, if_false]
      exact charListLt_irrefl rest

theorem charListLt_asymm : ∀ (a b : List Char), charListLt a b = true → charListLt b a = false
  | [], [], h => by cases h
  | [], _ :: _, _ => rfl
  | _ :: _, [], h => by cases h
  | x :: xs, y :: ys, h => by
      simp only [charListLt] at h ⊢
      by_cases hxy : x < y
      · rw [if_neg (lt_asymm hxy), if_pos hxy]
      · rw [if_neg hxy] at h
        by_cases hyx : y < x
        · rw [if_pos hyx] at h; cases h
        · rw [if_neg hyx] at h
          rw [if_neg hyx, if_neg hxy]
          exact charListLt_asymm xs ys h

theorem strLt_irrefl (a : String) : strLt a a = false := charListLt_irrefl a.data

theorem strLt_asymm {a b : String} (h : strLt a b = true) : strLt b a = false :=
  charListLt_asymm a.data b.data h

theorem strLt_ne {a b : String} (h : strLt a b = true) : a ≠ b := by
  intro he
  rw [he, strLt_irrefl] at h
  cases h

theorem beq_eq_false_of_strLt {a b : String} (h : strLt a b = true) : (a == b) = false := by
  have := strLt_ne h
  simp [this]

/-- Permutation property of stable insertion. -/
theorem stableInsert_perm {α : Type} (le : α → α → Bool) (x : α) :
    ∀ (l : List α), List.Perm (stableInsert le x l) (x :: l)
  | [] => List.Perm.refl [x]
  | y :: ys => by
      rw [stableInsert]
      by_cases h : le y x
      · rw [if_pos h]
        exact ((stableInsert_perm le x ys).cons y).trans (List.Perm.swap x y ys)
      · rw [if_neg h]

theorem mem_stableInsert {α : Type} (le : α → α → Bool) (x a : α) (l : List α) :
    a ∈ stableInsert le x l ↔ a = x ∨ a ∈ l := by
  rw [(stableInsert_perm le x l).mem_iff, List.mem_cons]

/-- The sort is a permutation of its input. -/
theorem stableSort_perm {α : Type} (le : α → α → Bool) (l : List α) :
    List.Perm (stableSort le l) l := by
  suffices h : ∀ (l acc : List α),
      List.Perm (l.foldl (fun acc x => stableInsert le x acc) acc) (acc ++ l) by
    simpa using h l []
  intro l
  induction l with
  | nil => intro acc; simp
  | cons x rest ih =>
      intro acc
      have h1 := ih (stableInsert le x acc)
      have h2 := (stableInsert_perm le x acc).append_right rest
      have h3 : List.Perm ((x :: acc) ++ rest) (acc ++ x :: rest) := by
        rw [List.cons_append]
        exact List.perm_middle.symm
      exact h1.trans (h2.trans h3)

theorem entryKeyLe_fresh_reused (a b : MEntry) (ha : a.priorModelId = "Znone")
    (hb : strLt b.priorModelId "Znone" = true) : entryKeyLe a b = false := by
  have h1 : strLt a.priorModelId b.priorModelId = false := by
    rw [ha]; exact strLt_asymm hb
  have h2 : (a.priorModelId == b.priorModelId) = false := by
    rw [ha]
    exact beq_eq_false_iff_ne.mpr (Ne.symm (strLt_ne hb))
  simp [entryKeyLe, h1, h2]

theorem entryKeyLe_reused_fresh (a b : MEntry) (ha : strLt a.priorModelId "Znone" = true)
    (hb : b.priorModelId = "Znone") : entryKeyLe a b = true := by
  simp [entryKeyLe, hb, ha]

theorem stableInsert_split_true {α : Type} (le : α → α → Bool) (f : α → Bool)
    (x : α) (hx : f x = true) :
    ∀ (A B : List α), (∀ y ∈ A, f y = true) → (∀ y ∈ B, f y = false) →
      (∀ y ∈ B, le y x = false) →
      ∃ A2, stableInsert le x (A ++ B) = A2 ++ B ∧ (∀ y ∈ A2, f y = true)
        ∧ (∀ y ∈ A2, y = x ∨ y ∈ A)
  | [], [], _, _, _ => ⟨[x], rfl, by simp [hx], by simp⟩
  | [], b :: bs, _, hB, hle => by
      rw [List.nil_append, stableInsert]
      rw [if_neg (by simp [hle b (List.mem_cons_self b bs)])]
      exact ⟨[x], rfl, by simp [hx], by simp⟩
  | a :: as, B, hA, hB, hle => by
      rw [List.cons_append, stableInsert]
      by_cases h : le a x
      · rw [if_pos h]
        obtain ⟨A2, heq, hA2, hprov⟩ := stableInsert_split_true le f x hx as B
          (fun y hy => hA y (List.mem_cons_of_mem a hy)) hB hle
        refine ⟨a :: A2, ?_, ?_, ?_⟩
        · rw [heq, List.cons_append]
        · intro y hy
          rcases List.mem_cons.mp hy with rfl | hy2
          · exact hA y (List.mem_cons_self y as)
          · exact hA2 y hy2
        · intro y hy
          rcases List.mem_cons.mp hy with rfl | hy2
          · exact Or.inr (List.mem_cons_self y as)
          · rcases hprov y hy2 with h2 | h2
            · exact Or.inl h2
            · exact Or.inr (List.mem_cons_of_mem a h2)
      · rw [if_neg h]
        refine ⟨x :: a :: as, by simp, ?_, ?_⟩
        · intro y hy
          rcases List.mem_cons.mp hy with rfl | hy2
          · exact hx
          · exact hA y hy2
        · intro y hy
          rcases List.mem_cons.mp hy with rfl | hy2
          · exact Or.inl rfl
          · exact Or.inr hy2

theorem stableInsert_split_false {α : Type} (le : α → α → Bool) (f : α → Bool)
    (x : α) (hx : f x = false) :
    ∀ (A B : List α), (∀ y ∈ A, f y = true) → (∀ y ∈ B, f y = false) →
      (∀ y ∈ A, le y x = true) →
      ∃ B2, stableInsert le x (A ++ B) = A ++ B2 ∧ (∀ y ∈ B2, f y = false)
        ∧ (∀ y ∈ B2, y = x ∨ y ∈ B)
  | [], B, _, hB, _ => by
      refine ⟨stableInsert le x B, by simp, ?_, ?_⟩
      · intro y hy
        rcases (mem_stableInsert le x y B).mp hy with rfl | hy2
        · exact hx
        · exact hB y hy2
      · intro y hy
        exact (mem_stableInsert le x y B).mp hy
  | a :: as, B, hA, hB, hle => by
      rw [List.cons_append, stableInsert]
      rw [if_pos (by simp [hle a (List.mem_cons_self a as)])]
      obtain ⟨B2, heq, hB2, hprov⟩ := stableInsert_split_false le f x hx as B
        (fun y hy => hA y (List.mem_cons_of_mem a hy)) hB
        (fun y hy => hle y (List.mem_cons_of_mem a hy))
      exact ⟨B2, by rw [heq, List.cons_append], hB2, hprov⟩

theorem stableSort_split_aux {α : Type} (le : α → α → Bool) (f : α → Bool) (L : List α)
    (hc1 : ∀ a ∈ L, ∀ b ∈ L, f a = false → f b = true → le a b = false)
    (hc2 : ∀ a ∈ L, ∀ b ∈ L, f a = true → f b = false → le a b = true) :
    ∀ (rest A B : List α), (∀ y ∈ rest, y ∈ L) → (∀ y ∈ A, y ∈ L) → (∀ y ∈ B, y ∈ L) →
      (∀ y ∈ A, f y = true) → (∀ y ∈ B, f y = false) →
      ∃ A2 B2, (rest.foldl (fun acc x => stableInsert le x acc) (A ++ B)) = A2 ++ B2
        ∧ (∀ y ∈ A2, y ∈ L) ∧ (∀ y ∈ B2, y ∈ L)
        ∧ (∀ y ∈ A2, f y = true) ∧ (∀ y ∈ B2, f y = false)
  | [], A, B, _, hAL, hBL, hA, hB => ⟨A, B, rfl, hAL, hBL, hA, hB⟩
  | x :: rest, A, B, hrest, hAL, hBL, hA, hB => by
      rw [List.foldl_cons]
      have hxL : x ∈ L := hrest x (List.mem_cons_self x rest)
      have hrest2 : ∀ y ∈ rest, y ∈ L := fun y hy => hrest y (List.mem_cons_of_mem x hy)
      cases hfx : f x with
      | true =>
          obtain ⟨A2, heq, hA2, hprov⟩ := stableInsert_split_true le f x hfx A B hA hB
            (fun y hy => hc1 y (hBL y hy) x hxL (hB y hy) hfx)
          rw [heq]
          refine stableSort_split_aux le f L hc1 hc2 rest A2 B hrest2 ?_ hBL hA2 hB
          intro y hy
          rcases hprov y hy with rfl | hy2
          · exact hxL
          · exact hAL y hy2
      | false =>
          obtain ⟨B2, heq, hB2, hprov⟩ := stableInsert_split_false le f x hfx A B hA hB
            (fun y hy => hc2 y (hAL y hy) x hxL (hA y hy) hfx)
          rw [heq]
          refine stableSort_split_aux le f L hc1 hc2 rest A B2 hrest2 hAL ?_ hA hB2
          intro y hy
          rcases hprov y hy with rfl | hy2
          · exact hxL
          · exact hBL y hy2

/-- A list whose elements fall into a `le`-compatible two-class partition
sorts into a class-A prefix followed by a class-B suffix. -/
theorem stableSort_split {α : Type} (le : α → α → Bool) (f : α → Bool) (L : List α)
    (hc1 : ∀ a ∈ L, ∀ b ∈ L, f a = false → f b = true → le a b = false)
    (hc2 : ∀ a ∈ L, ∀ b ∈ L, f a = true → f b = false → le a b = true) :
    ∃ A2 B2, stableSort le L = A2 ++ B2
      ∧ (∀ y ∈ A2, y ∈ L) ∧ (∀ y ∈ B2, y ∈ L)
      ∧ (∀ y ∈ A2, f y = true) ∧ (∀ y ∈ B2, f y = false) := by
  have h := stableSort_split_aux le f L hc1 hc2 L [] [] (fun y hy => hy)
    (by simp) (by simp) (by simp) (by simp)
  simpa [stableSort] using h

theorem selectModels_sublist (maxR : Int) :
    ∀ (l : List MEntry) (n : Nat), List.Sublist (selectModels maxR n l) l
  | [], _ => by simp [selectModels]
  | mD :: rest, n => by
      have h1 := selectModels_sublist maxR rest
      by_cases hstd : strStartsWith mD.variantType "A"
      · by_cases hr : maxR < mD.rFactor
        · rw [show selectModels maxR n (mD :: rest) = selectModels maxR (n + 1) rest from by
            simp [selectModels, hstd, hr]]
          exact (h1 (n + 1)).cons mD
        · rw [show selectModels maxR n (mD :: rest) = mD :: selectModels maxR (n + 1) rest from by
            simp [selectModels, hstd, hr]]
          exact (h1 (n + 1)).cons₂ mD
      · by_cases hr : maxR < mD.rFactor
        · rw [show selectModels maxR n (mD :: rest) = selectModels maxR n rest from by
            simp [selectModels, hstd, hr]]
          exact (h1 n).cons mD
        · by_cases hn : n = 0
          · rw [show selectModels maxR n (mD :: rest) = mD :: selectModels maxR n rest from by
              simp [selectModels, hstd, hr, hn]]
            exact (h1 n).cons₂ mD
          · rw [show selectModels maxR n (mD :: rest) = selectModels maxR n rest from by
              simp [selectModels, hstd, hr, hn]]
            exact (h1 n).cons mD

theorem addPriorForParent_eq_map : ∀ (ps : List PriorRecord) (l : List MEntry),
    addPriorForParent ps l = l.map (applyPriorsE ps)
  | [], l => by
      show l = l.map (applyPriorsE [])
      have h : l.map (applyPriorsE []) = l.map (fun e => e) :=
        List.map_congr_left (fun e _ => rfl)
      rw [h, List.map_id']
  | p :: ps, l => by
      have h0 : addPriorForParent (p :: ps) l = addPriorForParent ps (l.map (applyPriorRecord p)) := rfl
      rw [h0, addPriorForParent_eq_map ps (l.map (applyPriorRecord p)), List.map_map]
      rfl

theorem applyPriorRecord_modelId (p : PriorRecord) (e : MEntry) :
    (applyPriorRecord p e).modelId = e.modelId := by
  unfold applyPriorRecord
  split <;> rfl

theorem applyPriorRecord_matchId (p : PriorRecord) (e : MEntry) :
    (applyPriorRecord p e).matchId = e.matchId := by
  unfold applyPriorRecord
  split <;> rfl

theorem applyPriorsE_modelId : ∀ (ps : List PriorRecord) (e : MEntry),
    (applyPriorsE ps e).modelId = e.modelId
  | [], e => rfl
  | p :: ps, e => by
      have h0 : applyPriorsE (p :: ps) e = applyPriorsE ps (applyPriorRecord p e) := rfl
      rw [h0, applyPriorsE_modelId ps (applyPriorRecord p e), applyPriorRecord_modelId]

theorem applyPriorsE_matchId : ∀ (ps : List PriorRecord) (e : MEntry),
    (applyPriorsE ps e).matchId = e.matchId
  | [], e => rfl
  | p :: ps, e => by
      have h0 : applyPriorsE (p :: ps) e = applyPriorsE ps (applyPriorRecord p e) := rfl
      rw [h0, applyPriorsE_matchId ps (applyPriorRecord p e), applyPriorRecord_matchId]

theorem applyPriorRecord_prior (pr : PriorRecord) (a : MEntry) :
    (applyPriorRecord pr a).priorModelId
      = if pr.dbName == "CSD" && a.matchId == pr.dbCode then pr.modelId else "Znone" := by
  unfold applyPriorRecord
  split_ifs <;> rfl

theorem applyPriorsE_append_last (ps : List PriorRecord) (p0 : PriorRecord) (e : MEntry) :
    applyPriorsE (ps ++ [p0]) e = applyPriorRecord p0 (applyPriorsE ps e) := by
  unfold applyPriorsE
  rw [List.foldl_append]
  rfl

/-- The final prior link of one entry is decided by the parent's last prior
record alone. -/
theorem applyPriorsE_prior_last (ps : List PriorRecord) (hne : ps ≠ []) (e : MEntry) :
    (applyPriorsE ps e).priorModelId
      = if (ps.getLast hne).dbName == "CSD" && e.matchId == (ps.getLast hne).dbCode
        then (ps.getLast hne).modelId else "Znone" := by
  have h0 := List.dropLast_append_getLast hne
  have h1 : applyPriorsE ps e = applyPriorRecord (ps.getLast hne) (applyPriorsE ps.dropLast e) := by
    conv =>
      lhs
      rw [← h0]
    rw [applyPriorsE_append_last]
  rw [h1, applyPriorRecord_prior, applyPriorsE_matchId]

/-- The variant-update step of `__updateVariantDetails` leaves every field
used by the relabelling pass unchanged. -/
theorem updVariant_pres (e : MEntry) :
    ((if e.variantType == "" then { e with variantType := "Anone" } else e) : MEntry).modelId
        = e.modelId
    ∧ ((if e.variantType == "" then { e with variantType := "Anone" } else e) : MEntry).matchId
        = e.matchId
    ∧ ((if e.variantType == "" then { e with variantType := "Anone" } else e) : MEntry).priorModelId
        = e.priorModelId := by
  split <;> exact ⟨rfl, rfl, rfl⟩

theorem dictFind_eq_none {β : Type} :
    ∀ (d : List (String × β)) (k : String), (∀ pr ∈ d, pr.1 ≠ k) → dictFind d k = none
  | [], _, _ => rfl
  | p :: rest, k, h => by
      simp only [dictFind, dictFind_eq_none rest k (fun pr hpr => h pr (List.mem_cons_of_mem p hpr))]
      simp [h p (List.mem_cons_self p rest)]

theorem dictFind_mem {β : Type} :
    ∀ (d : List (String × β)) (k : String) (v : β), dictFind d k = some v → (k, v) ∈ d
  | [], _, _, h => by cases h
  | p :: rest, k, v, h => by
      simp only [dictFind] at h
      cases hr : dictFind rest k with
      | some w =>
          rw [hr] at h
          cases h
          exact List.mem_cons_of_mem p (dictFind_mem rest k v hr)
      | none =>
          rw [hr] at h
          by_cases hk : p.1 == k
          · rw [if_pos hk] at h
            cases h
            have : p.1 = k := by simpa using hk
            rw [← this]
            exact List.mem_cons_self p rest
          · rw [if_neg hk] at h
            cases h

theorem priorMapOf_keys :
    ∀ (l : List MEntry) (pr : String × String × String),
      pr ∈ priorMapOf l → ∃ e ∈ l, pr.1 = e.modelId
  | l, pr, h => by
      obtain ⟨e, he, hfe⟩ := List.mem_filterMap.mp h
      by_cases hz : strStartsWith e.priorModelId "Z"
      · rw [if_pos hz] at hfe
        cases hfe
      · rw [if_neg hz] at hfe
        cases hfe
        exact ⟨e, he, rfl⟩

/-- Looking up a retained entry's local id in `priorMapD`: `none` for fresh
entries, the prior pair for reused ones (given the entry's local id is unique
among retained entries up to entry equality). -/
theorem dictFind_priorMapOf :
    ∀ (l : List MEntry) (e : MEntry), e ∈ l →
      (∀ e2 ∈ l, e2.modelId = e.modelId → e2 = e) →
      dictFind (priorMapOf l) e.modelId
        = if strStartsWith e.priorModelId "Z" then none
          else some (e.priorModelId, e.priorMatchDate.getD "")
  | [], e, he, _ => absurd he (List.not_mem_nil e)
  | x :: rest, e, he, huniq => by
      have hmapcons : priorMapOf (x :: rest)
          = if strStartsWith x.priorModelId "Z" then priorMapOf rest
            else (x.modelId, x.priorModelId, x.priorMatchDate.getD "") :: priorMapOf rest := by
        simp only [priorMapOf, List.filterMap_cons]
        by_cases hxz : strStartsWith x.priorModelId "Z" <;> simp [hxz]
      by_cases hmem : e ∈ rest
      · have ih := dictFind_priorMapOf rest e hmem
          (fun e2 h2 hm => huniq e2 (List.mem_cons_of_mem x h2) hm)
        rw [hmapcons]
        by_cases hxz : strStartsWith x.priorModelId "Z"
        · rw [if_pos hxz]
          exact ih
        · rw [if_neg hxz]
          simp only [dictFind, ih]
          by_cases hez : strStartsWith e.priorModelId "Z"
          · rw [if_pos hez]
            have hne : x.modelId ≠ e.modelId := by
              intro hmeq
              have hxe : x = e := huniq x (List.mem_cons_self x rest) hmeq
              rw [hxe] at hxz
              exact hxz hez
            simp [hne]
          · rw [if_neg hez]
      · have hex : e = x := by
          rcases List.mem_cons.mp he with h | h
          · exact h
          · exact absurd h hmem
        subst hex
        have hnone : dictFind (priorMapOf rest) e.modelId = none := by
          apply dictFind_eq_none
          intro pr hpr
          obtain ⟨e2, he2, hpe⟩ := priorMapOf_keys rest pr hpr
          rw [hpe]
          intro hmeq
          exact hmem ((huniq e2 (List.mem_cons_of_mem e he2) hmeq) ▸ he2)
        rw [hmapcons]
        by_cases hez : strStartsWith e.priorModelId "Z"
        · rw [if_pos hez, if_pos hez, hnone]
        · rw [if_neg hez, if_neg hez]
          simp [dictFind, hnone]

/-- Unfolding of the relabelling loop on a container with a prior match. -/
theorem relabelGo_cons_some (pm : List (String × String × String))
    (pc : String → Nat) (pl : String → List Nat) (id : String) (rest : List String)
    (pr : String × String) (hf : dictFind pm id = some pr) :
    relabelGo pm pc pl (id :: rest)
      = { localModelId := id, publicModelId := pr.1, seqNum := seqOfModelId pr.1,
          auditDate := some pr.2 }
        :: relabelGo pm
            (fun q => if q = parentOfModelId id
              then (stableSort natLeB (pl (parentOfModelId id) ++ [seqOfModelId pr.1])).getLastD 0
              else pc q)
            (fun q => if q = parentOfModelId id
              then pl (parentOfModelId id) ++ [seqOfModelId pr.1] else pl q)
            rest := by
  simp only [relabelGo, hf]

/-- Unfolding of the relabelling loop on a container without a prior match. -/
theorem relabelGo_cons_none (pm : List (String × String × String))
    (pc : String → Nat) (pl : String → List Nat) (id : String) (rest : List String)
    (hf : dictFind pm id = none) :
    relabelGo pm pc pl (id :: rest)
      = { localModelId := id,
          publicModelId := makePublicModelId (parentOfModelId id) (pc (parentOfModelId id) + 1),
          seqNum := pc (parentOfModelId id) + 1, auditDate := none }
        :: relabelGo pm
            (fun q => if q = parentOfModelId id then pc (parentOfModelId id) + 1 else pc q)
            pl rest := by
  simp only [relabelGo, hf]

/-- State separation of the relabelling loop: the assignments made for one
parent depend only on that parent's subsequence of containers and the state
components at that parent. -/
theorem relabelGo_proj (pm : List (String × String × String)) (p : String) :
    ∀ (ids : List String) (pc1 pc2 : String → Nat) (pl1 pl2 : String → List Nat),
      pc1 p = pc2 p → pl1 p = pl2 p →
      (relabelGo pm pc1 pl1 ids).filter (fun a => parentOfModelId a.localModelId == p)
        = relabelGo pm pc2 pl2 (ids.filter (fun x => parentOfModelId x == p))
  | [], _, _, _, _, _, _ => rfl
  | id :: rest, pc1, pc2, pl1, pl2, hpc, hpl => by
      by_cases hq : parentOfModelId id = p
      · have hkeep : (id :: rest).filter (fun x => parentOfModelId x == p)
            = id :: rest.filter (fun x => parentOfModelId x == p) := by
          simp [List.filter_cons, hq]
        cases hf : dictFind pm id with
        | some pr =>
            rw [relabelGo_cons_some pm pc1 pl1 id rest pr hf, hkeep,
              relabelGo_cons_some pm pc2 pl2 id (rest.filter (fun x => parentOfModelId x == p)) pr hf]
            simp [List.filter_cons, hq, hpc, hpl]
            exact relabelGo_proj pm p rest _ _ _ _ (by simp [hpc, hpl]) (by simp [hpl])
        | none =>
            rw [relabelGo_cons_none pm pc1 pl1 id rest hf, hkeep,
              relabelGo_cons_none pm pc2 pl2 id (rest.filter (fun x => parentOfModelId x == p)) hf]
            simp [List.filter_cons, hq, hpc, hpl]
            exact relabelGo_proj pm p rest _ _ _ _ (by simp [hpc]) (by simp [hpl])
      · cases hf : dictFind pm id with
        | some pr =>
            rw [relabelGo_cons_some pm pc1 pl1 id rest pr hf]
            simp [List.filter_cons, hq]
            exact relabelGo_proj pm p rest _ _ _ _
              (by simp [Ne.symm hq, hpc]) (by simp [Ne.symm hq, hpl])
        | none =>
            rw [relabelGo_cons_none pm pc1 pl1 id rest hf]
            simp [List.filter_cons, hq]
            exact relabelGo_proj pm p rest _ _ _ _
              (by simp [Ne.symm hq, hpc]) (by simp [Ne.symm hq, hpl])

/-- A run of the relabelling loop over containers of a single parent, none of
which has a prior match, numbers them consecutively from the parent counter
and overwrites no audit date. -/
theorem relabelGo_fresh (pm : List (String × String × String)) (p : String) :
    ∀ (ids : List String) (pc : String → Nat) (pl : String → List Nat),
      (∀ id ∈ ids, parentOfModelId id = p) →
      (∀ id ∈ ids, dictFind pm id = none) →
      (relabelGo pm pc pl ids).map (fun a => a.seqNum) = consecFrom (pc p) ids.length
        ∧ ∀ a ∈ relabelGo pm pc pl ids, a.auditDate = none
  | [], pc, pl, _, _ => ⟨rfl, fun a ha => absurd ha (List.not_mem_nil a)⟩
  | id :: rest, pc, pl, hpar, hnone => by
      have hq : parentOfModelId id = p := hpar id (List.mem_cons_self id rest)
      have hf : dictFind pm id = none := hnone id (List.mem_cons_self id rest)
      rw [relabelGo_cons_none pm pc pl id rest hf]
      have ih := relabelGo_fresh pm p rest
        (fun q => if q = parentOfModelId id then pc (parentOfModelId id) + 1 else pc q) pl
        (fun x hx => hpar x (List.mem_cons_of_mem id hx))
        (fun x hx => hnone x (List.mem_cons_of_mem id hx))
      constructor
      · simp only [List.map_cons, List.length_cons, consecFrom]
        rw [ih.1]
        simp [hq]
      · intro a ha
        rcases List.mem_cons.mp ha with rfl | h2
        · rfl
        · exact ih.2 a h2

/-- A parent whose retained containers are all fresh satisfies the numbering
invariant: the loop numbers them 1, 2, ... with no reused numbers at all. -/
theorem relabelGo_group_fresh (pm : List (String × String × String)) (p : String)
    (ids : List String)
    (hpar : ∀ id ∈ ids, parentOfModelId id = p)
    (hnone : ∀ id ∈ ids, dictFind pm id = none) :
    monotonicFor (relabelGo pm (fun _ => 0) (fun _ => []) ids) := by
  have ih := relabelGo_fresh pm p ids (fun _ => 0) (fun _ => []) hpar hnone
  constructor
  · rw [ih.1]
    exact nodup_consecFrom _ _
  · intro a ha b hb hafresh hbsome
    have hbn := ih.2 b hb
    rw [hbn] at hbsome
    exact Bool.noConfusion hbsome

/-- A parent with one reused container followed by fresh ones satisfies the
numbering invariant: the reused sequence number becomes the counter, so every
fresh number strictly exceeds it. -/
theorem relabelGo_group_reused (pm : List (String × String × String)) (p : String)
    (r : String) (rest : List String) (pr : String × String)
    (hq : parentOfModelId r = p) (hf : dictFind pm r = some pr)
    (hpar : ∀ id ∈ rest, parentOfModelId id = p)
    (hnone : ∀ id ∈ rest, dictFind pm id = none) :
    monotonicFor (relabelGo pm (fun _ => 0) (fun _ => []) (r :: rest)) := by
  rw [relabelGo_cons_some pm (fun _ => 0) (fun _ => []) r rest pr hf]
  show monotonicFor
    ({ localModelId := r, publicModelId := pr.1, seqNum := seqOfModelId pr.1,
        auditDate := some pr.2 } ::
      relabelGo pm (fun q => if q = parentOfModelId r then seqOfModelId pr.1 else 0)
        (fun q => if q = parentOfModelId r then [seqOfModelId pr.1] else []) rest)
  have ih := relabelGo_fresh pm p rest
    (fun q => if q = parentOfModelId r then seqOfModelId pr.1 else 0)
    (fun q => if q = parentOfModelId r then [seqOfModelId pr.1] else [])
    hpar hnone
  have hval : (if p = parentOfModelId r then seqOfModelId pr.1 else 0) = seqOfModelId pr.1 := by
    simp [hq]
  simp only [hval] at ih
  constructor
  · simp only [List.map_cons]
    rw [ih.1, List.nodup_cons]
    constructor
    · intro hmem
      exact absurd (lt_of_mem_consecFrom rest.length (seqOfModelId pr.1) _ hmem) (lt_irrefl _)
    · exact nodup_consecFrom rest.length (seqOfModelId pr.1)
  · intro a ha b hb hafresh hbsome
    rcases List.mem_cons.mp ha with rfl | ha2
    · exact Option.noConfusion hafresh
    · rcases List.mem_cons.mp hb with rfl | hb2
      · have hmem : a.seqNum ∈ consecFrom (seqOfModelId pr.1) rest.length := by
          rw [← ih.1]
          exact List.mem_map_of_mem _ ha2
        exact lt_of_mem_consecFrom rest.length (seqOfModelId pr.1) a.seqNum hmem
      · have hbn := ih.2 b hb2
        rw [hbn] at hbsome
        exact Bool.noConfusion hbsome

theorem assembledEntries_eq (D : List (String × List MEntry))
    (P : List (String × List PriorRecord)) (maxR : Int) :
    assembledEntries D P maxR = (D.map (groupSel P maxR)).flatten := by
  unfold assembledEntries updateVariantDetails addPriorMatchDetails
  rw [List.map_map, List.map_map]
  congr 1
  apply List.map_congr_left
  intro pl _
  cases h : dictFind P pl.1 <;> simp [Function.comp, groupSel, enrichFor, h]

/-- The enrichment is an entrywise map preserving `modelId` and `matchId`. -/
theorem enrichFor_eq_map (P : List (String × List PriorRecord))
    (pl : String × List MEntry) :
    ∃ F : MEntry → MEntry, enrichFor P pl = pl.2.map F
      ∧ ∀ e, (F e).modelId = e.modelId ∧ (F e).matchId = e.matchId := by
  cases h : dictFind P pl.1 with
  | some ps =>
      refine ⟨fun e => (fun mD => if mD.variantType == "" then { mD with variantType := "Anone" }
        else mD) (applyPriorsE ps e), ?_, ?_⟩
      · simp only [enrichFor, h]
        rw [addPriorForParent_eq_map, List.map_map]
        exact List.map_congr_left (fun e _ => rfl)
      · intro e
        exact ⟨(updVariant_pres (applyPriorsE ps e)).1.trans (applyPriorsE_modelId ps e),
          (updVariant_pres (applyPriorsE ps e)).2.1.trans (applyPriorsE_matchId ps e)⟩
  | none =>
      refine ⟨fun e => (fun mD => if mD.variantType == "" then { mD with variantType := "Anone" }
        else mD) ({ e with priorModelId := "Znone" }), ?_, ?_⟩
      · simp only [enrichFor, h]
        rw [List.map_map]
        exact List.map_congr_left (fun e _ => rfl)
      · intro e
        exact ⟨(updVariant_pres ({ e with priorModelId := "Znone" })).1,
          (updVariant_pres ({ e with priorModelId := "Znone" })).2.1⟩

/-- When the parent has prior records, every enriched entry either carries the
last record's published id (and then its match id equals that record's code)
or the sentinel `"Znone"`. -/
theorem enrichFor_prior_some (P : List (String × List PriorRecord))
    (pl : String × List MEntry) (ps : List PriorRecord)
    (h : dictFind P pl.1 = some ps) (hne : ps ≠ []) :
    ∀ x ∈ enrichFor P pl,
      (x.priorModelId = (ps.getLast hne).modelId ∧ x.matchId = (ps.getLast hne).dbCode)
        ∨ x.priorModelId = "Znone" := by
  intro x hx
  simp only [enrichFor, h] at hx
  obtain ⟨b, hb, hxb⟩ := List.mem_map.mp hx
  rw [addPriorForParent_eq_map] at hb
  obtain ⟨e0, he0, hbe⟩ := List.mem_map.mp hb
  subst hbe
  subst hxb
  have hp := (updVariant_pres (applyPriorsE ps e0)).2.2.trans
    (applyPriorsE_prior_last ps hne e0)
  by_cases hc : ((ps.getLast hne).dbName == "CSD" && e0.matchId == (ps.getLast hne).dbCode) = true
  · rw [if_pos hc] at hp
    left
    refine ⟨hp, ?_⟩
    have hm := (updVariant_pres (applyPriorsE ps e0)).2.1.trans (applyPriorsE_matchId ps e0)
    have hcm : e0.matchId = (ps.getLast hne).dbCode :=
      eq_of_beq ((Bool.and_eq_true _ _).mp hc).2
    exact hm.trans hcm
  · rw [if_neg hc] at hp
    right
    exact hp

/-- When the parent has no prior records, every enriched entry carries the
sentinel `"Znone"`. -/
theorem enrichFor_prior_none (P : List (String × List PriorRecord))
    (pl : String × List MEntry) (h : dictFind P pl.1 = none) :
    ∀ x ∈ enrichFor P pl, x.priorModelId = "Znone" := by
  intro x hx
  simp only [enrichFor, h] at hx
  rw [List.map_map] at hx
  obtain ⟨e0, he0, hxe⟩ := List.mem_map.mp hx
  subst hxe
  exact (updVariant_pres ({ e0 with priorModelId := "Znone" })).2.2

/-- Every retained entry of a parent descends from one of that parent's
original entries, with `modelId` and `matchId` unchanged. -/
theorem mem_groupSel (P : List (String × List PriorRecord)) (maxR : Int)
    (pl : String × List MEntry) (e : MEntry) (he : e ∈ groupSel P maxR pl) :
    ∃ e0 ∈ pl.2, e.modelId = e0.modelId ∧ e.matchId = e0.matchId := by
  have h1 : e ∈ stableSort entryKeyLe (enrichFor P pl) :=
    (selectModels_sublist maxR (stableSort entryKeyLe (enrichFor P pl)) 0).subset he
  have h2 : e ∈ enrichFor P pl :=
    (stableSort_perm entryKeyLe (enrichFor P pl)).subset h1
  obtain ⟨F, hF, hpres⟩ := enrichFor_eq_map P pl
  rw [hF] at h2
  obtain ⟨e0, he0, hfe⟩ := List.mem_map.mp h2
  subst hfe
  exact ⟨e0, he0, (hpres e0).1, (hpres e0).2⟩

theorem groupSel_parent (P : List (String × List PriorRecord)) (maxR : Int)
    (pl : String × List MEntry)
    (hp : ∀ e ∈ pl.2, parentOfModelId e.modelId = pl.1) :
    ∀ e ∈ groupSel P maxR pl, parentOfModelId e.modelId = pl.1 := by
  intro e he
  obtain ⟨e0, he0, hm, _⟩ := mem_groupSel P maxR pl e he
  rw [hm]
  exact hp e0 he0

theorem enrichFor_matchIds (P : List (String × List PriorRecord))
    (pl : String × List MEntry) :
    (enrichFor P pl).map (fun e => e.matchId) = pl.2.map (fun e => e.matchId) := by
  obtain ⟨F, hF, hpres⟩ := enrichFor_eq_map P pl
  rw [hF, List.map_map]
  exact List.map_congr_left (fun e _ => (hpres e).2)

theorem groupSel_modelIds_nodup (P : List (String × List PriorRecord)) (maxR : Int)
    (pl : String × List MEntry)
    (h : (pl.2.map (fun e => e.modelId)).Nodup) :
    ((groupSel P maxR pl).map (fun e => e.modelId)).Nodup := by
  obtain ⟨F, hF, hpres⟩ := enrichFor_eq_map P pl
  have henr : ((enrichFor P pl).map (fun e => e.modelId)).Nodup := by
    rw [hF, List.map_map]
    rw [show pl.2.map ((fun e => e.modelId) ∘ F) = pl.2.map (fun e => e.modelId) from
      List.map_congr_left (fun e _ => (hpres e).1)]
    exact h
  have hsorted : ((stableSort entryKeyLe (enrichFor P pl)).map (fun e => e.modelId)).Nodup :=
    ((stableSort_perm entryKeyLe (enrichFor P pl)).map (fun e => e.modelId)).nodup_iff.mpr henr
  have hsub : List.Sublist ((groupSel P maxR pl).map (fun e => e.modelId))
      ((stableSort entryKeyLe (enrichFor P pl)).map (fun e => e.modelId)) :=
    (selectModels_sublist maxR (stableSort entryKeyLe (enrichFor P pl)) 0).map (fun e => e.modelId)
  exact hsorted.sublist hsub

theorem nodup_all_eq {α : Type} : ∀ (l : List α) (c : α), l.Nodup → (∀ x ∈ l, x = c) →
    l.length ≤ 1
  | [], _, _, _ => by simp
  | [_], _, _, _ => by simp
  | x :: y :: tl, c, hnd, hall => by
      exfalso
      have hx : x = c := hall x (List.mem_cons_self _ _)
      have hy : y = c := hall y (List.mem_cons_of_mem x (List.mem_cons_self _ _))
      have hnx : x ∉ y :: tl := (List.nodup_cons.mp hnd).1
      exact hnx (by rw [hx, hy]; exact List.mem_cons_self _ _)

/-- The model ids of the assembled entries are globally distinct when each
parent's entry list has distinct model ids, every entry's id encodes its
parent, and the parents themselves are distinct. -/
theorem flat_modelIds_nodup (P : List (String × List PriorRecord)) (maxR : Int) :
    ∀ (D : List (String × List MEntry)),
      (D.map (fun pl => pl.1)).Nodup →
      (∀ pl ∈ D, ∀ e ∈ pl.2, parentOfModelId e.modelId = pl.1) →
      (∀ pl ∈ D, (pl.2.map (fun e => e.modelId)).Nodup) →
      (((D.map (groupSel P maxR)).flatten).map (fun e => e.modelId)).Nodup
  | [], _, _, _ => by simp
  | pl :: D2, hkeys, hpar, hmid => by
      rw [List.map_cons, List.flatten_cons, List.map_append, List.nodup_append]
      have hknot : pl.1 ∉ D2.map (fun pl => pl.1) := (List.nodup_cons.mp hkeys).1
      refine ⟨?_, ?_, ?_⟩
      · exact groupSel_modelIds_nodup P maxR pl (hmid pl (List.mem_cons_self pl D2))
      · exact flat_modelIds_nodup P maxR D2 (List.nodup_cons.mp hkeys).2
          (fun q hq => hpar q (List.mem_cons_of_mem pl hq))
          (fun q hq => hmid q (List.mem_cons_of_mem pl hq))
      · intro a ha hb
        obtain ⟨e, he, hea⟩ := List.mem_map.mp ha
        obtain ⟨e2, he2, he2a⟩ := List.mem_map.mp hb
        obtain ⟨gl, hgl, he2g⟩ := List.mem_flatten.mp he2
        obtain ⟨pl2, hpl2, hglp⟩ := List.mem_map.mp hgl
        have h1 : parentOfModelId e.modelId = pl.1 :=
          groupSel_parent P maxR pl (hpar pl (List.mem_cons_self pl D2)) e he
        have h2 : parentOfModelId e2.modelId = pl2.1 := by
          apply groupSel_parent P maxR pl2 (hpar pl2 (List.mem_cons_of_mem pl hpl2)) e2
          rw [hglp]
          exact he2g
        have hkey : pl.1 = pl2.1 := by
          rw [← h1, ← h2, hea, he2a]
        exact hknot (by rw [hkey]; exact List.mem_map_of_mem (fun pl => pl.1) hpl2)

/-- Filtering the assembled entries by parent keeps exactly the groups whose
key is that parent. -/
theorem filter_flatten_groups (P : List (String × List PriorRecord)) (maxR : Int)
    (p : String) :
    ∀ (D : List (String × List MEntry)),
      (∀ pl ∈ D, ∀ e ∈ pl.2, parentOfModelId e.modelId = pl.1) →
      ((D.map (groupSel P maxR)).flatten).filter (fun e => parentOfModelId e.modelId == p)
        = ((D.filter (fun pl => pl.1 == p)).map (groupSel P maxR)).flatten
  | [], _ => rfl
  | pl :: D2, hpar => by
      have ih := filter_flatten_groups P maxR p D2
        (fun q hq => hpar q (List.mem_cons_of_mem pl hq))
      rw [List.map_cons, List.flatten_cons, List.filter_append, ih, List.filter_cons]
      by_cases hk : pl.1 = p
      · rw [if_pos (by simp [hk])]
        rw [List.map_cons, List.flatten_cons]
        congr 1
        apply List.filter_eq_self.mpr
        intro e he
        have hpe := groupSel_parent P maxR pl (hpar pl (List.mem_cons_self pl D2)) e he
        simp [hpe, hk]
      · rw [if_neg (by simp [hk])]
        have hnil : (groupSel P maxR pl).filter (fun e => parentOfModelId e.modelId == p)
            = [] := by
          apply List.filter_eq_nil_iff.mpr
          intro e he
          have hpe := groupSel_parent P maxR pl (hpar pl (List.mem_cons_self pl D2)) e he
          simp [hpe, hk]
        rw [hnil, List.nil_append]

/-- C1 (amended): monotonic numbering holds per parent under well-formedness
of the inputs. -/
theorem c1_monotonic_numbering
    (D : List (String × List MEntry)) (P : List (String × List PriorRecord))
    (maxR : Int) (p : String)
    (hkeys : (D.map (fun pl => pl.1)).Nodup)
    (hpar : ∀ pl ∈ D, ∀ e ∈ pl.2, parentOfModelId e.modelId = pl.1)
    (hmid : ∀ pl ∈ D, (pl.2.map (fun e => e.modelId)).Nodup)
    (hmatch : ∀ pl ∈ D, (pl.2.map (fun e => e.matchId)).Nodup)
    (hpne : ∀ ql ∈ P, ql.2 ≠ [])
    (hprior : ∀ ql ∈ P, ∀ rec ∈ ql.2,
        strStartsWith rec.modelId "Z" = false ∧ strLt rec.modelId "Znone" = true) :
    monotonicFor ((assemble D P maxR).filter
      (fun a => parentOfModelId a.localModelId == p)) := by
  have hglobal : (((D.map (groupSel P maxR)).flatten).map (fun e => e.modelId)).Nodup :=
    flat_modelIds_nodup P maxR D hkeys hpar hmid
  have hEeq := assembledEntries_eq D P maxR
  unfold assemble
  rw [relabelGo_proj (priorMapOf (assembledEntries D P maxR)) p
      ((assembledEntries D P maxR).map (fun e => e.modelId))
      (fun _ => 0) (fun _ => 0) (fun _ => []) (fun _ => []) rfl rfl]
  rw [List.filter_map]
  show monotonicFor (relabelGo (priorMapOf (assembledEntries D P maxR)) (fun _ => 0)
    (fun _ => [])
    (((assembledEntries D P maxR).filter
      (fun e => parentOfModelId e.modelId == p)).map (fun e => e.modelId)))
  rw [hEeq, filter_flatten_groups P maxR p D hpar]
  have hflen : (D.filter (fun pl => pl.1 == p)).length ≤ 1 := by
    have hsub : List.Sublist ((D.filter (fun pl => pl.1 == p)).map (fun pl => pl.1))
        (D.map (fun pl => pl.1)) := (List.filter_sublist D).map (fun pl => pl.1)
    have hnd := hkeys.sublist hsub
    have hall : ∀ x ∈ (D.filter (fun pl => pl.1 == p)).map (fun pl => pl.1), x = p := by
      intro x hx
      obtain ⟨q, hq, hqx⟩ := List.mem_map.mp hx
      rw [← hqx]
      exact eq_of_beq (List.mem_filter.mp hq).2
    have h3 := nodup_all_eq _ p hnd hall
    simpa using h3
  cases hGP : D.filter (fun pl => pl.1 == p) with
  | nil =>
      simp only [List.map_nil, List.flatten_nil]
      exact ⟨List.nodup_nil, fun a ha => absurd ha (List.not_mem_nil a)⟩
  | cons pl0 tl =>
      have htl0 : tl.length + 1 ≤ 1 := by
        have h4 := hflen
        rw [hGP] at h4
        simpa using h4
      have htl : tl = [] := List.eq_nil_of_length_eq_zero (by omega)
      subst htl
      have hpl0f : pl0 ∈ D.filter (fun pl => pl.1 == p) := by
        rw [hGP]
        exact List.mem_cons_self _ _
      have hpl0D : pl0 ∈ D := (List.mem_filter.mp hpl0f).1
      have hkp : pl0.1 = p := eq_of_beq (List.mem_filter.mp hpl0f).2
      simp only [List.map_cons, List.map_nil, List.flatten_cons, List.flatten_nil,
        List.append_nil]
      have hmemE : ∀ e ∈ groupSel P maxR pl0, e ∈ (D.map (groupSel P maxR)).flatten := by
        intro e he
        exact List.mem_flatten.mpr ⟨groupSel P maxR pl0,
          List.mem_map_of_mem (groupSel P maxR) hpl0D, he⟩
      have hparSel : ∀ e ∈ groupSel P maxR pl0, parentOfModelId e.modelId = p := by
        intro e he
        rw [groupSel_parent P maxR pl0 (hpar pl0 hpl0D) e he]
        exact hkp
      have hdf : ∀ e ∈ groupSel P maxR pl0,
          dictFind (priorMapOf ((D.map (groupSel P maxR)).flatten)) e.modelId
            = if strStartsWith e.priorModelId "Z" then none
              else some (e.priorModelId, e.priorMatchDate.getD "") := by
        intro e he
        exact dictFind_priorMapOf _ e (hmemE e he)
          (fun e2 h2 hm => List.inj_on_of_nodup_map hglobal h2 (hmemE e he) hm)
      cases hdP : dictFind P pl0.1 with
      | none =>
          apply relabelGo_group_fresh _ p
          · intro id hid
            obtain ⟨e, he, hem⟩ := List.mem_map.mp hid
            rw [← hem]
            exact hparSel e he
          · intro id hid
            obtain ⟨e, he, hem⟩ := List.mem_map.mp hid
            have he2 : e ∈ enrichFor P pl0 :=
              (stableSort_perm entryKeyLe (enrichFor P pl0)).subset
                ((selectModels_sublist maxR (stableSort entryKeyLe (enrichFor P pl0)) 0).subset he)
            have hz : strStartsWith e.priorModelId "Z" = true := by
              rw [enrichFor_prior_none P pl0 hdP e he2]
              decide
            rw [← hem, hdf e he, if_pos hz]
      | some ps =>
          have hPmem : (pl0.1, ps) ∈ P := dictFind_mem P pl0.1 ps hdP
          have hne : ps ≠ [] := hpne (pl0.1, ps) hPmem
          have hlast := hprior (pl0.1, ps) hPmem (ps.getLast hne) (List.getLast_mem hne)
          have hclass := enrichFor_prior_some P pl0 ps hdP hne
          have hfT : ∀ x ∈ enrichFor P pl0, (!(strStartsWith x.priorModelId "Z")) = true →
              x.priorModelId = (ps.getLast hne).modelId
                ∧ x.matchId = (ps.getLast hne).dbCode := by
            intro x hx hfx
            rcases hclass x hx with h | h
            · exact h
            · exfalso
              rw [h] at hfx
              have hzz : strStartsWith "Znone" "Z" = true := by decide
              rw [hzz] at hfx
              exact Bool.noConfusion hfx
          have hfF : ∀ x ∈ enrichFor P pl0, (!(strStartsWith x.priorModelId "Z")) = false →
              x.priorModelId = "Znone" := by
            intro x hx hfx
            rcases hclass x hx with h | h
            · exfalso
              rw [h.1, hlast.1] at hfx
              exact Bool.noConfusion hfx
            · exact h
          obtain ⟨A2, B2, hsort, hA2L, hB2L, hA2, hB2⟩ :=
            stableSort_split entryKeyLe (fun x => !(strStartsWith x.priorModelId "Z"))
              (enrichFor P pl0)
              (fun a ha b hb hfa hfb =>
                entryKeyLe_fresh_reused a b (hfF a ha hfa)
                  (by rw [(hfT b hb hfb).1]; exact hlast.2))
              (fun a ha b hb hfa hfb =>
                entryKeyLe_reused_fresh a b
                  (by rw [(hfT a ha hfa).1]; exact hlast.2) (hfF b hb hfb))
          have hmids : ((A2 ++ B2).map (fun e => e.matchId)).Nodup := by
            have hperm : List.Perm (A2 ++ B2) (enrichFor P pl0) := by
              rw [← hsort]
              exact stableSort_perm entryKeyLe (enrichFor P pl0)
            apply (hperm.map (fun e => e.matchId)).nodup_iff.mpr
            rw [enrichFor_matchIds P pl0]
            exact hmatch pl0 hpl0D
          have hA2len : A2.length ≤ 1 := by
            have hndA : (A2.map (fun e => e.matchId)).Nodup := by
              rw [List.map_append] at hmids
              exact hmids.of_append_left
            have hall : ∀ x ∈ A2.map (fun e => e.matchId), x = (ps.getLast hne).dbCode := by
              intro x hx
              obtain ⟨y, hy, hyx⟩ := List.mem_map.mp hx
              rw [← hyx]
              exact (hfT y (hA2L y hy) (hA2 y hy)).2
            have h5 := nodup_all_eq _ _ hndA hall
            simpa using h5
          have hgs : groupSel P maxR pl0
              = selectModels maxR 0 A2
                ++ selectModels maxR
                  (0 + A2.countP (fun e => strStartsWith e.variantType "A")) B2 := by
            show selectModels maxR 0 (stableSort entryKeyLe (enrichFor P pl0)) = _
            rw [hsort, selectModels_append]
          have hB3 : ∀ x ∈ selectModels maxR
              (0 + A2.countP (fun e => strStartsWith e.variantType "A")) B2,
              strStartsWith x.priorModelId "Z" = true := by
            intro x hx
            have hxB2 : x ∈ B2 := (selectModels_sublist maxR B2 _).subset hx
            have h6 := hB2 x hxB2
            simpa using h6
          cases hA3 : selectModels maxR 0 A2 with
          | nil =>
              rw [hgs, hA3, List.nil_append]
              apply relabelGo_group_fresh _ p
              · intro id hid
                obtain ⟨e, he, hem⟩ := List.mem_map.mp hid
                rw [← hem]
                apply hparSel e
                rw [hgs, hA3, List.nil_append]
                exact he
              · intro id hid
                obtain ⟨e, he, hem⟩ := List.mem_map.mp hid
                have hesel : e ∈ groupSel P maxR pl0 := by
                  rw [hgs, hA3, List.nil_append]
                  exact he
                rw [← hem, hdf e hesel, if_pos (hB3 e he)]
          | cons r tl2 =>
              have htl20 : tl2.length + 1 ≤ A2.length := by
                have h7 := (selectModels_sublist maxR A2 0).length_le
                rw [hA3] at h7
                simpa using h7
              have htl2 : tl2 = [] := List.eq_nil_of_length_eq_zero (by omega)
              subst htl2
              have hrA2 : r ∈ A2 := by
                apply (selectModels_sublist maxR A2 0).subset
                rw [hA3]
                exact List.mem_cons_self _ _
              have hrgs : r ∈ groupSel P maxR pl0 := by
                rw [hgs, hA3]
                exact List.mem_cons_self _ _
              have hrf := hfT r (hA2L r hrA2) (hA2 r hrA2)
              have hrz : strStartsWith r.priorModelId "Z" = false := by
                rw [hrf.1]
                exact hlast.1
              rw [hgs, hA3]
              show monotonicFor (relabelGo (priorMapOf ((D.map (groupSel P maxR)).flatten))
                (fun _ => 0) (fun _ => [])
                (r.modelId :: (selectModels maxR
                  (0 + A2.countP (fun e => strStartsWith e.variantType "A")) B2).map
                  (fun e => e.modelId)))
              apply relabelGo_group_reused _ p r.modelId _
                (r.priorModelId, r.priorMatchDate.getD "")
              · exact hparSel r hrgs
              · rw [hdf r hrgs, if_neg (by simp [hrz])]
              · intro id hid
                obtain ⟨e, he, hem⟩ := List.mem_map.mp hid
                rw [← hem]
                apply hparSel e
                rw [hgs, hA3]
                exact List.mem_append_right _ he
              · intro id hid
                obtain ⟨e, he, hem⟩ := List.mem_map.mp hid
                have hesel : e ∈ groupSel P maxR pl0 := by
                  rw [hgs, hA3]
                  exact List.mem_append_right _ he
                rw [← hem, hdf e hesel, if_pos (hB3 e he)]

/-- C1 witness: the invariant holds on a concrete two-model, two-prior-record
input for parent `ABC`. -/
theorem c1_witness :
    monotonicFor ((assemble exC2Index exC2Prior 10).filter
      (fun a => parentOfModelId a.localModelId == "ABC")) :=
  c1_monotonic_numbering exC2Index exC2Prior 10 "ABC"
    (by decide) (by decide) (by decide) (by decide) (by decide) (by decide)

end CCModels
